import Mathlib

/-
  Verification development for the `asm` resolution engine: the pass that
  lowers a parsed textual-IR module (AST) into a linked in-memory IR module.

  The embedding mirrors the Go source:
  * `resolveTypeDefs`, `newIRType`, `astToIRTypeDef` and the per-kind fill
    helpers (type resolver),
  * `resolveGlobals`, `newGlobal`, `astToIRGlobal*` (global/function resolver),
  * `irBasicBlock` (function-body resolver).

  Pointer-structured IR values are embedded with explicit heaps: `GenState`
  holds lists of nodes, and a Go pointer is an index (`Nat`) into the list.
  Mutation of a node through a pointer is `List.set` at that index, so object
  identity ("the same node") is equality of indices.

  Go's two failure channels are kept separate: `Res.err` models an ordinary
  returned `error`, `Res.panicked` models a call to `panic`.

  External collaborators (the parser's AST accessors, `internal/enc`,
  `uintLit`, attribute helpers such as `irOptLinkage`) are outside the
  resolver core; the AST is embedded as a plain inductive carrying exactly
  the data the resolver reads through accessors, and attribute population
  (linkage, visibility, ...) is not represented since no resolver logic
  depends on it.
-/

namespace LTM

/-- Floating-point kinds (`types.FloatKind`). -/
inductive FloatKind where
  | half
  | float
  | double
  | x86fp80
  | fp128
  | ppcfp128
deriving DecidableEq, Repr

/-- AST type nodes, as read by the resolver through the parser's accessors
(`ast.OpaqueType`, `ast.ArrayType`, ..., `ast.NamedType`).  Names carried by
`named` are already stripped of their `%` sigil (the Go code applies `local`
to the raw identifier).  Length literals are carried as `Nat` (the Go code
obtains them through `uintLit`). -/
inductive AstType where
  | opaq
  | array (len : Nat) (elem : AstType)
  | float (kind : FloatKind)
  | func (ret : AstType) (params : List AstType) (variadic : Bool)
  | int (bitSize : Int)
  | label
  | mmx
  | metadata
  | named (name : String)
  | ptr (elem : AstType) (addrSpace : Nat)
  | struct (fields : List AstType)
  | packedStruct (fields : List AstType)
  | token
  | vector (len : Nat) (elem : AstType)
  | void

/-- AST constants appearing as global initializers (read via `old.Init()`). -/
inductive AstConst where
  | intLit (v : Int)
  | globalRef (name : String)
deriving DecidableEq, Repr

/-- One function parameter of an AST function header (`ast.Param`). -/
structure FuncParam where
  name : Option String
  typ : AstType

/-- An AST function header (`ast.FuncHeader`): name (sans `@`), return type,
parameters and variadic flag. -/
structure FuncHeader where
  name : String
  retType : AstType
  params : List FuncParam
  variadic : Bool

/-- Instructions of a function body, restricted to the shapes the resolution
claims exercise: a call to a global name (optionally binding a result name),
a branch to a label, and a bare return. -/
inductive Inst where
  | call (result : Option String) (callee : String)
  | br (target : String)
  | retVoid
deriving DecidableEq, Repr

/-- An AST basic block: its label and its instructions. -/
structure AstBlock where
  label : String
  insts : List Inst
deriving DecidableEq, Repr

/-- Top-level AST entities, as dispatched on by the indexing loops of
`resolveTypeDefs` and `resolveGlobals`.  `otherEntity` stands for any further
top-level production that both switches skip. -/
inductive TopLevelEntity where
  | typeDef (aliasName : String) (typ : AstType)
  | globalDecl (name : String) (contentType : AstType)
  | globalDef (name : String) (contentType : AstType) (init : AstConst)
  | funcDecl (header : FuncHeader)
  | funcDef (header : FuncHeader) (body : List AstBlock)
  | otherEntity

/-- The recoverable error channel (`error` return values built with
`errors.Errorf`), tagged by the error families named in the spec. -/
inductive GenError where
  | duplicateDefinition (name : String) (prevText : String) (newText : String)
  | cyclicTypeAlias (names : List String)
  | unresolvedIdentifier (name : String)
  | unresolvedLocal (name : String)
  | localKindMismatch (got : String)
deriving DecidableEq, Repr

/-- The fatal channel: reasons the Go code calls `panic`. -/
inductive PanicKind where
  | unsupportedConstruct
  | kindMismatch
  | opaqTypeUse
  | assemblyFailure
deriving DecidableEq, Repr

/-- Outcome of a resolver computation: a value, a recoverable error, or a
process abort.  The two failure channels are deliberately distinct types. -/
inductive Res (α : Type) where
  | ok (a : α)
  | err (e : GenError)
  | panicked (p : PanicKind)
deriving DecidableEq, Repr

def Res.bind {α β : Type} : Res α → (α → Res β) → Res β
  | .ok a, f => f a
  | .err e, _ => .err e
  | .panicked p, _ => .panicked p

instance : Monad Res where
  pure := Res.ok
  bind := Res.bind

/-- IR type nodes (`types.VoidType`, `types.FuncType`, ...).  Child type
slots hold heap indices; a slot that is still a Go `nil` pointer is `none`.
A skeleton is a node whose slots carry the Go zero values. -/
inductive TypeNode where
  | voidType (aliasName : String)
  | funcType (aliasName : String) (ret : Option Nat) (params : List Nat) (variadic : Bool)
  | intType (aliasName : String) (bitSize : Int)
  | floatType (aliasName : String) (kind : FloatKind)
  | mmxType (aliasName : String)
  | ptrType (aliasName : String) (elem : Option Nat) (addrSpace : Nat)
  | vectorType (aliasName : String) (len : Int) (elem : Option Nat)
  | labelType (aliasName : String)
  | tokenType (aliasName : String)
  | metadataType (aliasName : String)
  | arrayType (aliasName : String) (len : Int) (elem : Option Nat)
  | structType (aliasName : String) (packed : Bool) (fields : List Nat) (opaq : Bool)
deriving DecidableEq, Repr

/-- A resolved global initializer (`ir.Constant`): either a literal or a
reference to a global entity by heap index. -/
inductive ConstVal where
  | intConst (v : Int)
  | globalRef (g : Nat)
deriving DecidableEq, Repr

/-- IR global entities (`ir.Global` and `ir.Function`).  Type slots index the
type heap, `blocks` indexes the basic-block heap, parameters are pairs of a
resolved type index and the optional source name. -/
inductive GlobalNode where
  | globalVar (name : String) (contentType : Option Nat) (typ : Option Nat)
      (init : Option ConstVal)
  | functionNode (name : String) (sig : Option Nat) (typ : Option Nat)
      (params : List (Nat × Option String)) (blocks : List Nat)
deriving DecidableEq, Repr

/-- An IR basic block (`ir.BasicBlock`): its label name. -/
structure BlockNode where
  name : String
deriving DecidableEq, Repr

/-- A function-local entity bound in the per-function name table `fgen.ls`. -/
inductive LocalEntity where
  | param
  | block (b : Nat)
  | instResult
deriving DecidableEq, Repr

/-- The generator state (`*generator`): the three heaps, the two identity
tables `ts` and `gs`, and the three output collections of the IR module.
`mTypeDefs` entries are `Option` because Go appends `gen.ts[key]`, which is
`nil` for an absent key. -/
structure GenState where
  tstore : List TypeNode
  gstore : List GlobalNode
  bstore : List BlockNode
  ts : List (String × Nat)
  gs : List (String × Nat)
  mTypeDefs : List (Option Nat)
  mGlobals : List Nat
  mFuncs : List Nat
deriving DecidableEq, Repr

/-- The generator in its initial state (all heaps and tables empty). -/
def initGen : GenState := ⟨[], [], [], [], [], [], [], []⟩

/-- Allocate a type node, returning its heap index (Go: `&types.Foo…`). -/
def GenState.allocType (gen : GenState) (n : TypeNode) : Nat × GenState :=
  (gen.tstore.length, { gen with tstore := gen.tstore ++ [n] })

/-- Dereference a type pointer. -/
def GenState.getType (gen : GenState) (a : Nat) : Option TypeNode :=
  gen.tstore[a]?

/-- Mutate the type node behind a pointer (Go: assignment through `typ`). -/
def GenState.setType (gen : GenState) (a : Nat) (n : TypeNode) : GenState :=
  { gen with tstore := gen.tstore.set a n }

/-- Allocate a global node, returning its heap index. -/
def GenState.allocGlobal (gen : GenState) (n : GlobalNode) : Nat × GenState :=
  (gen.gstore.length, { gen with gstore := gen.gstore ++ [n] })

/-- Dereference a global pointer. -/
def GenState.getGlobal (gen : GenState) (a : Nat) : Option GlobalNode :=
  gen.gstore[a]?

/-- Mutate the global node behind a pointer. -/
def GenState.setGlobal (gen : GenState) (a : Nat) (n : GlobalNode) : GenState :=
  { gen with gstore := gen.gstore.set a n }

/-- Allocate a basic-block node, returning its heap index. -/
def GenState.allocBlock (gen : GenState) (n : BlockNode) : Nat × GenState :=
  (gen.bstore.length, { gen with bstore := gen.bstore ++ [n] })

/-- Go map lookup over an association list (first binding wins; `upsert`
keeps at most one binding per key, so this is exact map semantics). -/
def lookupName {α : Type} (k : String) : List (String × α) → Option α
  | [] => none
  | (k', v) :: rest => if k' = k then some v else lookupName k rest

/-- Go map insertion `m[k] = v`: replace the binding in place, else append. -/
def upsert {α : Type} (l : List (String × α)) (k : String) (v : α) :
    List (String × α) :=
  match l with
  | [] => [(k, v)]
  | (k', v') :: rest =>
      if k' = k then (k, v) :: rest else (k', v') :: upsert rest k v

/-- `enc.Local`: render a local identifier with its `%` sigil. -/
def encLocal (name : String) : String := "%" ++ name

/-- `enc.Global`: render a global identifier with its `@` sigil. -/
def encGlobal (name : String) : String := "@" ++ name

mutual
/-- Model of the parser's `Text()` accessor on a type node: a deterministic
textual rendering used only inside diagnostics. -/
def astTypeText : AstType → String
  | .opaq => "opaque"
  | .array len elem => "[" ++ toString len ++ " x " ++ astTypeText elem ++ "]"
  | .float _ => "float"
  | .func ret params variadic =>
      astTypeText ret ++ " (" ++ astTypeTexts params ++
        (if variadic then ", ..." else "") ++ ")"
  | .int bitSize => "i" ++ toString bitSize
  | .label => "label"
  | .mmx => "x86_mmx"
  | .metadata => "metadata"
  | .named name => encLocal name
  | .ptr elem addrSpace =>
      astTypeText elem ++ " addrspace(" ++ toString addrSpace ++ ")*"
  | .struct fields => "type-struct(" ++ astTypeTexts fields ++ ")"
  | .packedStruct fields => "packed-struct(" ++ astTypeTexts fields ++ ")"
  | .token => "token"
  | .vector len elem => "<" ++ toString len ++ " x " ++ astTypeText elem ++ ">"
  | .void => "void"

/-- Comma-separated rendering of a type list. -/
def astTypeTexts : List AstType → String
  | [] => ""
  | [t] => astTypeText t
  | t :: rest => astTypeText t ++ ", " ++ astTypeTexts rest
end

/-- Model of the `text` helper applied to a top-level entity. -/
def entityText : TopLevelEntity → String
  | .typeDef aliasName typ => encLocal aliasName ++ " = type " ++ astTypeText typ
  | .globalDecl name contentType =>
      encGlobal name ++ " = external global " ++ astTypeText contentType
  | .globalDef name contentType _ =>
      encGlobal name ++ " = global " ++ astTypeText contentType
  | .funcDecl header => "declare " ++ encGlobal header.name
  | .funcDef header _ => "define " ++ encGlobal header.name
  | .otherEntity => ""

/-- Rendering of a local entity's dynamic kind (model of `%T` in the
`irBasicBlock` diagnostics). -/
def localEntityText : LocalEntity → String
  | .param => "*ir.Param"
  | .block _ => "*ir.BasicBlock"
  | .instResult => "value.Named"

/-- `newIRType`: create a new IR type (without body) for type name
`aliasName` from the AST node `old`.  Non-alias kinds allocate a fresh
skeleton node carrying the Go zero values of their body slots (the float
kind's zero value is `FloatKindHalf`).  A bare alias (`ast.NamedType`) is
chased through `index`; each visited alias is recorded in `track`, and an
already-visited alias reports the full visited set as a cycle, sorted.  In
Go a chase target absent from `index` yields a nil `newTyp`, and the
recursive call's `default:` branch panics; that one recursion step is
inlined here as the `none` case of the chase lookup. -/
def newIRType (gen : GenState) (aliasName : String) (old : AstType)
    (index : List (String × AstType)) (track : List String) :
    Res (Nat × GenState) :=
  match old with
  | .opaq => .ok (gen.allocType (.structType aliasName false [] false))
  | .array _ _ => .ok (gen.allocType (.arrayType aliasName 0 none))
  | .float _ => .ok (gen.allocType (.floatType aliasName .half))
  | .func _ _ _ => .ok (gen.allocType (.funcType aliasName none [] false))
  | .int _ => .ok (gen.allocType (.intType aliasName 0))
  | .label => .ok (gen.allocType (.labelType aliasName))
  | .mmx => .ok (gen.allocType (.mmxType aliasName))
  | .metadata => .ok (gen.allocType (.metadataType aliasName))
  | .named name =>
      if h : aliasName ∈ track then
        .err (.cyclicTypeAlias
          (List.insertionSort (· ≤ ·) (track.map encLocal)))
      else
        match hlook : lookupName name index with
        | none => .panicked .unsupportedConstruct
        | some newTyp => newIRType gen name newTyp index (aliasName :: track)
  | .ptr _ _ => .ok (gen.allocType (.ptrType aliasName none 0))
  | .struct _ => .ok (gen.allocType (.structType aliasName false [] false))
  | .packedStruct _ => .ok (gen.allocType (.structType aliasName false [] false))
  | .token => .ok (gen.allocType (.tokenType aliasName))
  | .vector _ _ => .ok (gen.allocType (.vectorType aliasName 0 none))
  | .void => .ok (gen.allocType (.voidType aliasName))
termination_by
  ((index.map Prod.fst).filter (fun k => !(decide (k ∈ track)))).length +
    (if aliasName ∈ index.map Prod.fst then 0 else 1)
decreasing_by
  have hkeys : name ∈ index.map Prod.fst := by
    clear h
    induction index with
    | nil => simp [lookupName] at hlook
    | cons p rest ih =>
        obtain ⟨k', v⟩ := p
        rw [lookupName] at hlook
        by_cases hk : k' = name
        · subst hk; simp
        · simp only [if_neg hk] at hlook
          exact List.mem_cons_of_mem _ (ih hlook)
  by_cases hA : aliasName ∈ index.map Prod.fst
  · have hstrict :
        ((index.map Prod.fst).filter
            (fun k => !(decide (k ∈ aliasName :: track)))).length <
        ((index.map Prod.fst).filter (fun k => !(decide (k ∈ track)))).length := by
      have himp : ∀ x : String,
          (fun k => !(decide (k ∈ aliasName :: track))) x = true →
          (fun k => !(decide (k ∈ track))) x = true := by
        intro x hx
        simp only [List.mem_cons, Bool.not_eq_true', decide_eq_false_iff_not,
          not_or] at hx ⊢
        exact hx.2
      have hsub := List.monotone_filter_right (index.map Prod.fst) himp
      rcases lt_or_eq_of_le hsub.length_le with hlt | heq
      · exact hlt
      · exfalso
        have heqlist := hsub.eq_of_length heq
        have hmemq : aliasName ∈
            (index.map Prod.fst).filter (fun k => !(decide (k ∈ track))) := by
          refine List.mem_filter.2 ⟨hA, ?_⟩
          simp [h]
        rw [← heqlist] at hmemq
        have := (List.mem_filter.1 hmemq).2
        simp at this
    rw [if_pos hkeys, if_pos hA]
    omega
  · have hsame :
        ((index.map Prod.fst).filter
            (fun k => !(decide (k ∈ aliasName :: track)))).length =
        ((index.map Prod.fst).filter (fun k => !(decide (k ∈ track)))).length := by
      have hcongr : ∀ x ∈ index.map Prod.fst,
          (fun k => !(decide (k ∈ aliasName :: track))) x =
          (fun k => !(decide (k ∈ track))) x := by
        intro x hx
        have hxa : x ≠ aliasName := fun hcontra => hA (hcontra ▸ hx)
        simp [List.mem_cons, hxa]
      rw [List.filter_congr hcongr]
    rw [if_pos hkeys, if_neg hA, hsame]
    omega

/-- `astToIRNamedType`: fill-phase handler for a named-type reference.  The
given IR node `t` is not consulted at all: the reference resolves through
the identity table `gen.ts`, and an absent name is the recoverable
unresolved-identifier error. -/
def astToIRNamedType (gen : GenState) (_t : Option Nat) (name : String) :
    Res (Nat × GenState) :=
  match lookupName name gen.ts with
  | none => .err (.unresolvedIdentifier name)
  | some typ => .ok (typ, gen)

/-- `astToIRVoidType`: allocate a fresh node when `t` is nil, otherwise
require the node to be a void type ("nothing to do"); a node of any other
kind is the implementation-bug panic. -/
def astToIRVoidType (gen : GenState) (t : Option Nat) : Res (Nat × GenState) :=
  match t with
  | none => .ok (gen.allocType (.voidType ""))
  | some a =>
      match gen.getType a with
      | some (.voidType _) => .ok (a, gen)
      | _ => .panicked .kindMismatch

/-- `astToIRIntType`: like `astToIRVoidType` but stores the bit size
(`irIntTypeBitSize`); the alias of an existing node is untouched. -/
def astToIRIntType (gen : GenState) (t : Option Nat) (bitSize : Int) :
    Res (Nat × GenState) :=
  match t with
  | none => .ok (gen.allocType (.intType "" bitSize))
  | some a =>
      match gen.getType a with
      | some (.intType aliasName _) =>
          .ok (a, gen.setType a (.intType aliasName bitSize))
      | _ => .panicked .kindMismatch

/-- `astToIRFloatType`: stores the floating-point kind (`irFloatKind`). -/
def astToIRFloatType (gen : GenState) (t : Option Nat) (kind : FloatKind) :
    Res (Nat × GenState) :=
  match t with
  | none => .ok (gen.allocType (.floatType "" kind))
  | some a =>
      match gen.getType a with
      | some (.floatType aliasName _) =>
          .ok (a, gen.setType a (.floatType aliasName kind))
      | _ => .panicked .kindMismatch

/-- `astToIRMMXType`: kind check only, "nothing to do". -/
def astToIRMMXType (gen : GenState) (t : Option Nat) : Res (Nat × GenState) :=
  match t with
  | none => .ok (gen.allocType (.mmxType ""))
  | some a =>
      match gen.getType a with
      | some (.mmxType _) => .ok (a, gen)
      | _ => .panicked .kindMismatch

/-- `astToIRLabelType`: kind check only, "nothing to do". -/
def astToIRLabelType (gen : GenState) (t : Option Nat) : Res (Nat × GenState) :=
  match t with
  | none => .ok (gen.allocType (.labelType ""))
  | some a =>
      match gen.getType a with
      | some (.labelType _) => .ok (a, gen)
      | _ => .panicked .kindMismatch

/-- `astToIRTokenType`: kind check only, "nothing to do". -/
def astToIRTokenType (gen : GenState) (t : Option Nat) : Res (Nat × GenState) :=
  match t with
  | none => .ok (gen.allocType (.tokenType ""))
  | some a =>
      match gen.getType a with
      | some (.tokenType _) => .ok (a, gen)
      | _ => .panicked .kindMismatch

/-- `astToIRMetadataType`: kind check only, "nothing to do". -/
def astToIRMetadataType (gen : GenState) (t : Option Nat) :
    Res (Nat × GenState) :=
  match t with
  | none => .ok (gen.allocType (.metadataType ""))
  | some a =>
      match gen.getType a with
      | some (.metadataType _) => .ok (a, gen)
      | _ => .panicked .kindMismatch

/-- `astToIROpaqueType`: an opaque body is only legal in a type definition,
so a nil `t` is a grammar-level panic; otherwise the struct node is marked
opaque in place. -/
def astToIROpaqueType (gen : GenState) (t : Option Nat) :
    Res (Nat × GenState) :=
  match t with
  | none => .panicked .opaqTypeUse
  | some a =>
      match gen.getType a with
      | some (.structType aliasName packed fields _) =>
          .ok (a, gen.setType a (.structType aliasName packed fields true))
      | _ => .panicked .kindMismatch

mutual
/-- `astToIRTypeDef`: translate the AST type `old` to IR.  When `t` is nil a
fresh node is created, otherwise the body of the node behind `t` is
populated in place.  Named types resolve through `gen.ts`.  The recursive
compound cases (`astToIRFuncType`, `astToIRPointerType`,
`astToIRVectorType`, `astToIRArrayType`, `astToIRStructType`,
`astToIRPackedStructType` in Go) are the inline arms of this dispatcher;
each nested type reference is resolved by `gen.irType`, i.e. a recursive
call with a nil node. -/
def astToIRTypeDef (gen : GenState) (t : Option Nat) (old : AstType) :
    Res (Nat × GenState) :=
  match old with
  | .opaq => astToIROpaqueType gen t
  | .array len elem => do
      -- astToIRArrayType
      let (a, aliasName, gen) ←
        match t with
        | none =>
            let (a, gen) := gen.allocType (.arrayType "" 0 none)
            Res.ok (a, "", gen)
        | some a =>
            match gen.getType a with
            | some (.arrayType al _ _) => Res.ok (a, al, gen)
            | _ => Res.panicked .kindMismatch
      let (elemA, gen) ← astToIRTypeDef gen none elem
      Res.ok (a, gen.setType a (.arrayType aliasName (Int.ofNat len) (some elemA)))
  | .float kind => astToIRFloatType gen t kind
  | .func ret params variadic => do
      -- astToIRFuncType
      let (a, aliasName, params0, gen) ←
        match t with
        | none =>
            let (a, gen) := gen.allocType (.funcType "" none [] false)
            Res.ok (a, "", [], gen)
        | some a =>
            match gen.getType a with
            | some (.funcType al _ ps _) => Res.ok (a, al, ps, gen)
            | _ => Res.panicked .kindMismatch
      let (retA, gen) ← astToIRTypeDef gen none ret
      let (paramsA, gen) ← irTypeList gen params
      Res.ok (a, gen.setType a
        (.funcType aliasName (some retA) (params0 ++ paramsA) variadic))
  | .int bitSize => astToIRIntType gen t bitSize
  | .label => astToIRLabelType gen t
  | .mmx => astToIRMMXType gen t
  | .metadata => astToIRMetadataType gen t
  | .named name => astToIRNamedType gen t name
  | .ptr elem addrSpace => do
      -- astToIRPointerType
      let (a, aliasName, gen) ←
        match t with
        | none =>
            let (a, gen) := gen.allocType (.ptrType "" none 0)
            Res.ok (a, "", gen)
        | some a =>
            match gen.getType a with
            | some (.ptrType al _ _) => Res.ok (a, al, gen)
            | _ => Res.panicked .kindMismatch
      let (elemA, gen) ← astToIRTypeDef gen none elem
      Res.ok (a, gen.setType a (.ptrType aliasName (some elemA) addrSpace))
  | .struct fields => do
      -- astToIRStructType (the packed flag of an existing node is left as is)
      let (a, aliasName, packed0, fields0, gen) ←
        match t with
        | none =>
            let (a, gen) := gen.allocType (.structType "" false [] false)
            Res.ok (a, "", false, [], gen)
        | some a =>
            match gen.getType a with
            | some (.structType al pk fs _) => Res.ok (a, al, pk, fs, gen)
            | _ => Res.panicked .kindMismatch
      let (fieldsA, gen) ← irTypeList gen fields
      Res.ok (a, gen.setType a
        (.structType aliasName packed0 (fields0 ++ fieldsA) false))
  | .packedStruct fields => do
      -- astToIRPackedStructType (sets the packed flag)
      let (a, aliasName, fields0, gen) ←
        match t with
        | none =>
            let (a, gen) := gen.allocType (.structType "" false [] false)
            Res.ok (a, "", [], gen)
        | some a =>
            match gen.getType a with
            | some (.structType al _ fs _) => Res.ok (a, al, fs, gen)
            | _ => Res.panicked .kindMismatch
      let (fieldsA, gen) ← irTypeList gen fields
      Res.ok (a, gen.setType a
        (.structType aliasName true (fields0 ++ fieldsA) false))
  | .token => astToIRTokenType gen t
  | .vector len elem => do
      -- astToIRVectorType
      let (a, aliasName, gen) ←
        match t with
        | none =>
            let (a, gen) := gen.allocType (.vectorType "" 0 none)
            Res.ok (a, "", gen)
        | some a =>
            match gen.getType a with
            | some (.vectorType al _ _) => Res.ok (a, al, gen)
            | _ => Res.panicked .kindMismatch
      let (elemA, gen) ← astToIRTypeDef gen none elem
      Res.ok (a, gen.setType a (.vectorType aliasName (Int.ofNat len) (some elemA)))
  | .void => astToIRVoidType gen t

/-- The element loops of the compound fill cases (`for _, f := range
old.Fields()` and the parameter loop of `astToIRFuncType`): resolve each
nested AST type in order via `gen.irType`. -/
def irTypeList (gen : GenState) (olds : List AstType) :
    Res (List Nat × GenState) :=
  match olds with
  | [] => Res.ok ([], gen)
  | o :: rest => do
      let (a, gen) ← astToIRTypeDef gen none o
      let (rest', gen) ← irTypeList gen rest
      Res.ok (a :: rest', gen)
end

/-- `gen.irType`: translate a (possibly anonymous) AST type occurring inside
another construct; a fresh IR node is created. -/
def irType (gen : GenState) (old : AstType) : Res (Nat × GenState) :=
  astToIRTypeDef gen none old

/-- The indexing loop of `resolveTypeDefs`: scan the top-level entities,
recording in `order` the first occurrence of each type name, in `added` the
names seen so far, and in `index` the latest AST body per name.  A repeated
name whose previously indexed body is not opaque is a duplicate-definition
error carrying both textual forms; otherwise the new body overwrites the
indexed one.  (The Go switch on the body's static kind panics only for AST
node kinds outside the grammar, which the embedded `AstType` does not
contain.) -/
def indexTypeDefs (entities : List TopLevelEntity)
    (index : List (String × AstType)) (added : List String)
    (order : List String) :
    Res (List (String × AstType) × List String × List String) :=
  match entities with
  | [] => .ok (index, added, order)
  | .typeDef aliasName typ :: rest =>
      let order' := if aliasName ∈ added then order else order ++ [aliasName]
      let added' := if aliasName ∈ added then added else aliasName :: added
      match lookupName aliasName index with
      | some prev =>
          match prev with
          | .opaq => indexTypeDefs rest (upsert index aliasName typ) added' order'
          | _ =>
              .err (.duplicateDefinition aliasName
                (astTypeText prev) (astTypeText typ))
      | none => indexTypeDefs rest (upsert index aliasName typ) added' order'
  | _ :: rest => indexTypeDefs rest index added order

/-- The skeleton loop of `resolveTypeDefs` (`for aliasName, old := range
index`): Go iterates the map in an unspecified order, embedded here as an
explicit key sequence `perm`; a fresh `track` set is used per entry, and the
new skeleton is registered in `gen.ts`.  A key outside the index has no Go
counterpart (map iteration only yields present keys) and is mapped to a
fatal outcome. -/
def typeSkeletonLoop (index : List (String × AstType)) (perm : List String)
    (gen : GenState) : Res GenState :=
  match perm with
  | [] => .ok gen
  | aliasName :: rest =>
      match lookupName aliasName index with
      | none => .panicked .unsupportedConstruct
      | some old => do
          let (t, gen) ← newIRType gen aliasName old index []
          typeSkeletonLoop index rest
            { gen with ts := upsert gen.ts aliasName t }

/-- The fill loop of `resolveTypeDefs` (`for aliasName, old := range index`,
again over an unspecified iteration order `perm`): each registered skeleton
is populated from its AST body; the node returned by `astToIRTypeDef` is
discarded (`_, err := ...`). -/
def typeFillLoop (index : List (String × AstType)) (perm : List String)
    (gen : GenState) : Res GenState :=
  match perm with
  | [] => .ok gen
  | aliasName :: rest =>
      match lookupName aliasName index, lookupName aliasName gen.ts with
      | some old, some t => do
          let (_, gen) ← astToIRTypeDef gen (some t) old
          typeFillLoop index rest gen
      | _, _ => .panicked .unsupportedConstruct

/-- The assembly loop of `resolveTypeDefs`: append `gen.ts[key]` for each
key in first-occurrence order (an absent key would append Go's nil,
i.e. `none`). -/
def typeAssembly (order : List String) (gen : GenState) : GenState :=
  match order with
  | [] => gen
  | key :: rest =>
      typeAssembly rest
        { gen with mTypeDefs := gen.mTypeDefs ++ [lookupName key gen.ts] }

/-- `resolveTypeDefs`: index the type definitions, reset `gen.ts`, create
all skeletons, fill all bodies, then emit the type-definition list in
first-occurrence order.  `permS` and `permF` are the iteration orders of the
two `range` loops over the index map. -/
def resolveTypeDefs (entities : List TopLevelEntity)
    (permS permF : List String) (gen : GenState) : Res GenState := do
  let (index, _, order) ← indexTypeDefs entities [] [] []
  let gen := { gen with ts := [] }
  let gen ← typeSkeletonLoop index permS gen
  let gen ← typeFillLoop index permF gen
  .ok (typeAssembly order gen)

/-- The indexing loop of `resolveGlobals`: global variables and functions
share one identifier namespace (a single `index` map) so any repeated name
is a duplicate-definition error carrying both entities' texts; the two
order lists record global names and function names separately, in source
order. -/
def indexGlobals (entities : List TopLevelEntity)
    (index : List (String × TopLevelEntity))
    (globalOrder funcOrder : List String) :
    Res (List (String × TopLevelEntity) × List String × List String) :=
  match entities with
  | [] => .ok (index, globalOrder, funcOrder)
  | e :: rest =>
      match e with
      | .globalDecl name _ =>
          match lookupName name index with
          | some prev =>
              .err (.duplicateDefinition name (entityText prev) (entityText e))
          | none =>
              indexGlobals rest (upsert index name e)
                (globalOrder ++ [name]) funcOrder
      | .globalDef name _ _ =>
          match lookupName name index with
          | some prev =>
              .err (.duplicateDefinition name (entityText prev) (entityText e))
          | none =>
              indexGlobals rest (upsert index name e)
                (globalOrder ++ [name]) funcOrder
      | .funcDecl header =>
          match lookupName header.name index with
          | some prev =>
              .err (.duplicateDefinition header.name
                (entityText prev) (entityText e))
          | none =>
              indexGlobals rest (upsert index header.name e)
                globalOrder (funcOrder ++ [header.name])
      | .funcDef header _ =>
          match lookupName header.name index with
          | some prev =>
              .err (.duplicateDefinition header.name
                (entityText prev) (entityText e))
          | none =>
              indexGlobals rest (upsert index header.name e)
                globalOrder (funcOrder ++ [header.name])
      | _ => indexGlobals rest index globalOrder funcOrder

/-- The parameter-type loop shared by the function cases of `newGlobal`:
resolve each parameter's type via `gen.irType`. -/
def sigParamTypes (gen : GenState) (params : List FuncParam) :
    Res (List Nat × GenState) :=
  match params with
  | [] => .ok ([], gen)
  | p :: rest => do
      let (a, gen) ← irType gen p.typ
      let (rest', gen) ← sigParamTypes gen rest
      .ok (a :: rest', gen)

/-- `newGlobal`: create the IR value for a global or function, without body
but with its type fully resolved.  A global's content type is resolved and
its pointer type derived (`types.NewPointer`); a function's full signature
(return type, parameter types, variadic flag) is resolved eagerly and its
pointer type derived. -/
def newGlobal (gen : GenState) (name : String) (old : TopLevelEntity) :
    Res (Nat × GenState) :=
  match old with
  | .globalDecl _ contentType => do
      let (g, gen) := gen.allocGlobal (.globalVar name none none none)
      let (ctA, gen) ← irType gen contentType
      let (ptrA, gen) := gen.allocType (.ptrType "" (some ctA) 0)
      .ok (g, gen.setGlobal g (.globalVar name (some ctA) (some ptrA) none))
  | .globalDef _ contentType _ => do
      let (g, gen) := gen.allocGlobal (.globalVar name none none none)
      let (ctA, gen) ← irType gen contentType
      let (ptrA, gen) := gen.allocType (.ptrType "" (some ctA) 0)
      .ok (g, gen.setGlobal g (.globalVar name (some ctA) (some ptrA) none))
  | .funcDecl header => do
      let (f, gen) := gen.allocGlobal (.functionNode name none none [] [])
      let (sigA, gen) := gen.allocType (.funcType "" none [] false)
      let (retA, gen) ← irType gen header.retType
      let (paramsA, gen) ← sigParamTypes gen header.params
      let gen := gen.setType sigA
        (.funcType "" (some retA) paramsA header.variadic)
      let (ptrA, gen) := gen.allocType (.ptrType "" (some sigA) 0)
      .ok (f, gen.setGlobal f (.functionNode name (some sigA) (some ptrA) [] []))
  | .funcDef header _ => do
      let (f, gen) := gen.allocGlobal (.functionNode name none none [] [])
      let (sigA, gen) := gen.allocType (.funcType "" none [] false)
      let (retA, gen) ← irType gen header.retType
      let (paramsA, gen) ← sigParamTypes gen header.params
      let gen := gen.setType sigA
        (.funcType "" (some retA) paramsA header.variadic)
      let (ptrA, gen) := gen.allocType (.ptrType "" (some sigA) 0)
      .ok (f, gen.setGlobal f (.functionNode name (some sigA) (some ptrA) [] []))
  | _ => .panicked .unsupportedConstruct

/-- Modelled from the spec: `gen.irConstant` (absent from the excerpted
sources).  The fill phase "resolves the initializer constant (globals,
constrained by the already-known content type)"; references to globals by
name go through the identity table `gen.gs` and an absent name is an
unresolved-identifier error. -/
def irConstant (gen : GenState) (_contentType : Option Nat) (c : AstConst) :
    Res (ConstVal × GenState) :=
  match c with
  | .intLit v => .ok (.intConst v, gen)
  | .globalRef name =>
      match lookupName name gen.gs with
      | none => .err (.unresolvedIdentifier name)
      | some g => .ok (.globalRef g, gen)

/-- `astToIRGlobalDecl`: fill a global-variable declaration.  Only the
descriptive attributes are populated (their helpers are external); a node
that is not an `ir.Global` is the implementation-bug panic. -/
def astToIRGlobalDecl (gen : GenState) (g : Nat) : Res (Nat × GenState) :=
  match gen.getGlobal g with
  | some (.globalVar _ _ _ _) => .ok (g, gen)
  | _ => .panicked .kindMismatch

/-- `astToIRGlobalDef`: fill a global-variable definition: descriptive
attributes plus the initializer constant, resolved against the content type
stored during the skeleton phase. -/
def astToIRGlobalDef (gen : GenState) (g : Nat) (init : AstConst) :
    Res (Nat × GenState) :=
  match gen.getGlobal g with
  | some (.globalVar name contentType typ _) => do
      let (c, gen) ← irConstant gen contentType init
      .ok (g, gen.setGlobal g (.globalVar name contentType typ (some c)))
  | _ => .panicked .kindMismatch

/-- The parameter loop of `astToIRFuncHeader`: resolve each parameter's type
and build the `ir.Param` values (type plus optional name). -/
def headerParams (gen : GenState) (params : List FuncParam) :
    Res (List (Nat × Option String) × GenState) :=
  match params with
  | [] => .ok ([], gen)
  | p :: rest => do
      let (a, gen) ← irType gen p.typ
      let (rest', gen) ← headerParams gen rest
      .ok ((a, p.name) :: rest', gen)

/-- `astToIRFuncHeader`: populate a function node's parameter list from its
header (the descriptive attribute helpers are external and populate no
resolver-visible state). -/
def astToIRFuncHeader (gen : GenState) (f : Nat) (header : FuncHeader) :
    Res GenState :=
  match gen.getGlobal f with
  | some (.functionNode name sig typ params0 blocks) => do
      let (ps, gen) ← headerParams gen header.params
      .ok (gen.setGlobal f (.functionNode name sig typ (params0 ++ ps) blocks))
  | _ => .panicked .kindMismatch

/-- `irBasicBlock`: resolve a label reference through the per-function local
table `fgen.ls`: an absent name is the unresolved-local error naming the
label; a bound entity that is not a basic block is the local-kind-mismatch
error reporting the entity's dynamic kind. -/
def irBasicBlock (ls : List (String × LocalEntity)) (name : String) :
    Res Nat :=
  match lookupName name ls with
  | none => .err (.unresolvedLocal name)
  | some (.block b) => .ok b
  | some v => .err (.localKindMismatch (localEntityText v))

/-- Modelled from the spec: the block pre-registration pass of the function
body resolver (`resolveLocals`, absent from the excerpted sources).  "All
basic-block names must be pre-registered as skeletons before any
instruction operand is resolved": allocate one block node per AST block and
bind its label in the local table. -/
def registerBlocks (gen : GenState) (ls : List (String × LocalEntity))
    (body : List AstBlock) :
    List Nat × List (String × LocalEntity) × GenState :=
  match body with
  | [] => ([], ls, gen)
  | b :: rest =>
      let (a, gen) := gen.allocBlock ⟨b.label⟩
      let (rest', ls, gen) := registerBlocks gen (upsert ls b.label (.block a)) rest
      (a :: rest', ls, gen)

/-- Modelled from the spec: instruction-operand resolution of the function
body resolver.  A call resolves its callee through the module-wide table
`gen.gs` (absent name: unresolved identifier) and binds its result name as
an instruction result; a branch resolves its target label via
`irBasicBlock`. -/
def resolveInsts (gen : GenState) (ls : List (String × LocalEntity))
    (insts : List Inst) : Res (List (String × LocalEntity) × GenState) :=
  match insts with
  | [] => .ok (ls, gen)
  | .call result callee :: rest =>
      match lookupName callee gen.gs with
      | none => .err (.unresolvedIdentifier callee)
      | some _ =>
          let ls :=
            match result with
            | some r => upsert ls r .instResult
            | none => ls
          resolveInsts gen ls rest
  | .br target :: rest =>
      match irBasicBlock ls target with
      | .ok _ => resolveInsts gen ls rest
      | .err e => .err e
      | .panicked p => .panicked p
  | .retVoid :: rest => resolveInsts gen ls rest

/-- The per-block loop of the function body resolver: resolve every
instruction of every block, threading the local table. -/
def resolveBlocks (gen : GenState) (ls : List (String × LocalEntity))
    (body : List AstBlock) : Res (List (String × LocalEntity) × GenState) :=
  match body with
  | [] => .ok (ls, gen)
  | b :: rest => do
      let (ls, gen) ← resolveInsts gen ls b.insts
      resolveBlocks gen ls rest

/-- Modelled from the spec: `resolveLocals` (absent from the excerpted
sources).  Seed the local table with the function's parameters, pre-register
every basic-block label, then resolve all instruction operands; finally
store the resolved block list on the function node. -/
def resolveLocals (gen : GenState) (f : Nat) (body : List AstBlock) :
    Res GenState :=
  match gen.getGlobal f with
  | some (.functionNode name sig typ params _) => do
      let ls0 := params.foldl
        (fun ls p =>
          match p.2 with
          | some n => upsert ls n .param
          | none => ls) ([] : List (String × LocalEntity))
      let (blockAddrs, ls, gen) := registerBlocks gen ls0 body
      let (_, gen) ← resolveBlocks gen ls body
      .ok (gen.setGlobal f (.functionNode name sig typ params blockAddrs))
  | _ => .panicked .kindMismatch

/-- `astToIRFuncDecl`: fill a function declaration (header only). -/
def astToIRFuncDecl (gen : GenState) (f : Nat) (header : FuncHeader) :
    Res (Nat × GenState) :=
  match gen.getGlobal f with
  | some (.functionNode _ _ _ _ _) => do
      let gen ← astToIRFuncHeader gen f header
      .ok (f, gen)
  | _ => .panicked .kindMismatch

/-- `astToIRFuncDef`: fill a function definition: header, then the function
body through the function-body resolver. -/
def astToIRFuncDef (gen : GenState) (f : Nat) (header : FuncHeader)
    (body : List AstBlock) : Res (Nat × GenState) :=
  match gen.getGlobal f with
  | some (.functionNode _ _ _ _ _) => do
      let gen ← astToIRFuncHeader gen f header
      let gen ← resolveLocals gen f body
      .ok (f, gen)
  | _ => .panicked .kindMismatch

/-- `astToIRGlobal`: dispatch the fill phase on the entity's kind. -/
def astToIRGlobal (gen : GenState) (g : Nat) (old : TopLevelEntity) :
    Res (Nat × GenState) :=
  match old with
  | .globalDecl _ _ => astToIRGlobalDecl gen g
  | .globalDef _ _ init => astToIRGlobalDef gen g init
  | .funcDecl header => astToIRFuncDecl gen g header
  | .funcDef header body => astToIRFuncDef gen g header body
  | _ => .panicked .unsupportedConstruct

/-- The skeleton loop of `resolveGlobals` (`for name, old := range index`,
iteration order `perm`): create each IR value and register it in `gen.gs`. -/
def globalSkeletonLoop (index : List (String × TopLevelEntity))
    (perm : List String) (gen : GenState) : Res GenState :=
  match perm with
  | [] => .ok gen
  | name :: rest =>
      match lookupName name index with
      | none => .panicked .unsupportedConstruct
      | some old => do
          let (g, gen) ← newGlobal gen name old
          globalSkeletonLoop index rest { gen with gs := upsert gen.gs name g }

/-- The fill loop of `resolveGlobals` (`for name, old := range index`,
iteration order `perm`). -/
def globalFillLoop (index : List (String × TopLevelEntity))
    (perm : List String) (gen : GenState) : Res GenState :=
  match perm with
  | [] => .ok gen
  | name :: rest =>
      match lookupName name index, lookupName name gen.gs with
      | some old, some g => do
          let (_, gen) ← astToIRGlobal gen g old
          globalFillLoop index rest gen
      | _, _ => .panicked .unsupportedConstruct

/-- Modelled from the spec: `gen.global` (absent from the excerpted
sources): look up a global variable by name in `gen.gs`, failing if the
name is unbound or bound to a value of another kind. -/
def globalValue (gen : GenState) (name : String) : Res Nat :=
  match lookupName name gen.gs with
  | none => .err (.unresolvedIdentifier name)
  | some a =>
      match gen.getGlobal a with
      | some (.globalVar _ _ _ _) => .ok a
      | _ => .err (.unresolvedIdentifier name)

/-- Modelled from the spec: `gen.function` (absent from the excerpted
sources): look up a function by name in `gen.gs`. -/
def functionValue (gen : GenState) (name : String) : Res Nat :=
  match lookupName name gen.gs with
  | none => .err (.unresolvedIdentifier name)
  | some a =>
      match gen.getGlobal a with
      | some (.functionNode _ _ _ _ _) => .ok a
      | _ => .err (.unresolvedIdentifier name)

/-- The global assembly loop of `resolveGlobals`: append each global in
source order; a lookup failure is a bug in the implementation and panics. -/
def globalAssemblyGlobals (order : List String) (gen : GenState) :
    Res GenState :=
  match order with
  | [] => .ok gen
  | key :: rest =>
      match globalValue gen key with
      | .ok g =>
          globalAssemblyGlobals rest { gen with mGlobals := gen.mGlobals ++ [g] }
      | .err _ => .panicked .assemblyFailure
      | .panicked p => .panicked p

/-- The function assembly loop of `resolveGlobals`. -/
def globalAssemblyFuncs (order : List String) (gen : GenState) :
    Res GenState :=
  match order with
  | [] => .ok gen
  | key :: rest =>
      match functionValue gen key with
      | .ok f =>
          globalAssemblyFuncs rest { gen with mFuncs := gen.mFuncs ++ [f] }
      | .err _ => .panicked .assemblyFailure
      | .panicked p => .panicked p

/-- `resolveGlobals`: index the global and function entities, reset
`gen.gs`, create all skeletons (with full types), fill all bodies, then
emit globals and functions in their respective source orders. -/
def resolveGlobals (entities : List TopLevelEntity)
    (permS permF : List String) (gen : GenState) : Res GenState := do
  let (index, globalOrder, funcOrder) ← indexGlobals entities [] [] []
  let gen := { gen with gs := [] }
  let gen ← globalSkeletonLoop index permS gen
  let gen ← globalFillLoop index permF gen
  let gen ← globalAssemblyGlobals globalOrder gen
  globalAssemblyFuncs funcOrder gen

/-- Modelled from the spec: the driver's control flow "Indexer → Type
Resolver → Global/Function Resolver → Assembler": resolve the type
definitions, then the globals and functions, of one module. -/
def resolveModule (entities : List TopLevelEntity)
    (permT1 permT2 permG1 permG2 : List String) (gen : GenState) :
    Res GenState := do
  let gen ← resolveTypeDefs entities permT1 permT2 gen
  resolveGlobals entities permG1 permG2 gen

/-- Spec-side definition (follows the spec's words, for comparison with the
resolver's computed order): the first-occurrence order of type names among
the top-level entities, relative to a set of names already seen. -/
def specTypeNameOrderAux (seen : List String) :
    List TopLevelEntity → List String
  | [] => []
  | .typeDef aliasName _ :: rest =>
      if aliasName ∈ seen then specTypeNameOrderAux seen rest
      else aliasName :: specTypeNameOrderAux (aliasName :: seen) rest
  | _ :: rest => specTypeNameOrderAux seen rest

/-- Spec-side definition: "the order names are first seen while scanning
top-level declarations". -/
def specTypeNameOrder (entities : List TopLevelEntity) : List String :=
  specTypeNameOrderAux [] entities

/-- Spec-side definition: the names of global variable declarations and
definitions in source order. -/
def specGlobalOrder : List TopLevelEntity → List String
  | [] => []
  | .globalDecl name _ :: rest => name :: specGlobalOrder rest
  | .globalDef name _ _ :: rest => name :: specGlobalOrder rest
  | _ :: rest => specGlobalOrder rest

/-- Spec-side definition: the names of function declarations and definitions
in source order. -/
def specFuncOrder : List TopLevelEntity → List String
  | [] => []
  | .funcDecl header :: rest => header.name :: specFuncOrder rest
  | .funcDef header _ :: rest => header.name :: specFuncOrder rest
  | _ :: rest => specFuncOrder rest

/-- All names drawn from the shared global/function identifier namespace, in
source order (the names inserted into the index of `resolveGlobals`). -/
def globalFuncNames : List TopLevelEntity → List String
  | [] => []
  | .globalDecl name _ :: rest => name :: globalFuncNames rest
  | .globalDef name _ _ :: rest => name :: globalFuncNames rest
  | .funcDecl header :: rest => header.name :: globalFuncNames rest
  | .funcDef header _ :: rest => header.name :: globalFuncNames rest
  | _ :: rest => globalFuncNames rest

/-- The name stored on an IR global entity (`GlobalName`). -/
def globalNodeName : GlobalNode → String
  | .globalVar name _ _ _ => name
  | .functionNode name _ _ _ _ => name

/-- Whether a global entity is an `ir.Global` (a global variable). -/
def GlobalNode.isVarNode : GlobalNode → Bool
  | .globalVar _ _ _ _ => true
  | .functionNode _ _ _ _ _ => false

/-- Whether an IR type node is a `types.FuncType`. -/
def TypeNode.isFuncNode : TypeNode → Bool
  | .funcType _ _ _ _ => true
  | _ => false

/-- Whether a skeleton node's runtime kind agrees with an AST type's kind:
exactly the type assertions checked by the fill-phase handlers (a named
reference consults only the table, so any node agrees with it). -/
def nodeMatchesAst (n : TypeNode) (old : AstType) : Bool :=
  match old, n with
  | .opaq, .structType _ _ _ _ => true
  | .array _ _, .arrayType _ _ _ => true
  | .float _, .floatType _ _ => true
  | .func _ _ _, .funcType _ _ _ _ => true
  | .int _, .intType _ _ => true
  | .label, .labelType _ => true
  | .mmx, .mmxType _ => true
  | .metadata, .metadataType _ => true
  | .named _, _ => true
  | .ptr _ _, .ptrType _ _ _ => true
  | .struct _, .structType _ _ _ _ => true
  | .packedStruct _, .structType _ _ _ _ => true
  | .token, .tokenType _ => true
  | .vector _ _, .vectorType _ _ _ => true
  | .void, .voidType _ => true
  | _, _ => false

/-- The table invariant of the global/function resolver: every name bound in
`gen.gs` points to a live global entity carrying that very name. -/
def GsOk (gen : GenState) : Prop :=
  ∀ k a, lookupName k gen.gs = some a →
    ∃ node, gen.getGlobal a = some node ∧ globalNodeName node = k

/-- The module `%a = type %b ; %b = type i32`, used to exhibit the fate of a
bare-alias type definition. -/
def aliasPairEntities : List TopLevelEntity :=
  [.typeDef "a" (.named "b"), .typeDef "b" (.int 32)]

/-- The generator state produced by resolving `aliasPairEntities`: note the
node registered for `a` (index 0) is a fresh `i32` copy whose bit size was
never populated, while the node for `b` (index 1) was filled in place. -/
def aliasPairGen : GenState :=
  ⟨[.intType "b" 0, .intType "b" 32], [], [], [("a", 0), ("b", 1)], [],
    [some 0, some 1], [], []⟩

/-- The module `define f { call g } ; define g`, where `f` calls the
later-defined `g`. -/
def fgEntities : List TopLevelEntity :=
  [.funcDef ⟨"f", .void, [], false⟩ [⟨"entry", [.call none "g", .retVoid]⟩],
   .funcDef ⟨"g", .void, [], false⟩ [⟨"entry", [.retVoid]⟩]]

/-- The generator state produced by resolving `fgEntities`. -/
def fgGen : GenState :=
  ⟨[.funcType "" (some 1) [] false, .voidType "", .ptrType "" (some 0) 0,
    .funcType "" (some 4) [] false, .voidType "", .ptrType "" (some 3) 0],
   [.functionNode "f" (some 0) (some 2) [] [0],
    .functionNode "g" (some 3) (some 5) [] [1]],
   [⟨"entry"⟩, ⟨"entry"⟩], [], [("f", 0), ("g", 1)], [], [], [0, 1]⟩

/-- Frame of the type-resolution computations: everything except the type
heap is untouched. -/
def framePreserved (gen gen' : GenState) : Prop :=
  gen'.ts = gen.ts ∧ gen'.gs = gen.gs ∧ gen'.gstore = gen.gstore ∧
  gen'.bstore = gen.bstore ∧ gen'.mTypeDefs = gen.mTypeDefs ∧
  gen'.mGlobals = gen.mGlobals ∧ gen'.mFuncs = gen.mFuncs

/-- Frame of the global-resolution computations: the two tables and the
module lists are untouched, and every live global entity keeps its name and
its variable-versus-function kind (the heaps may grow and entities may be
filled in place). -/
def gframePreserved (gen gen' : GenState) : Prop :=
  gen'.ts = gen.ts ∧ gen'.gs = gen.gs ∧ gen'.mTypeDefs = gen.mTypeDefs ∧
  gen'.mGlobals = gen.mGlobals ∧ gen'.mFuncs = gen.mFuncs ∧
  ∀ b node, gen.getGlobal b = some node →
    ∃ node', gen'.getGlobal b = some node' ∧
      globalNodeName node' = globalNodeName node ∧
      node'.isVarNode = node.isVarNode

/-! Helper lemmas shared by the claim theorems. -/

@[simp] theorem Res.ok_bind {α β : Type} (a : α) (f : α → Res β) :
    (Res.ok a >>= f) = f a := rfl

@[simp] theorem Res.err_bind {α β : Type} (e : GenError) (f : α → Res β) :
    (Res.err e >>= f) = Res.err e := rfl

@[simp] theorem Res.panicked_bind {α β : Type} (p : PanicKind)
    (f : α → Res β) : (Res.panicked p >>= f) = Res.panicked p := rfl

theorem Res.bind_eq_ok {α β : Type} {x : Res α} {f : α → Res β} {b : β}
    (h : x >>= f = .ok b) : ∃ a, x = .ok a ∧ f a = .ok b := by
  cases x with
  | ok a => exact ⟨a, rfl, h⟩
  | err e => simp at h
  | panicked p => simp at h

theorem lookupName_upsert_self {α : Type} (l : List (String × α))
    (k : String) (v : α) : lookupName k (upsert l k v) = some v := by
  induction l with
  | nil => simp [upsert, lookupName]
  | cons p rest ih =>
      obtain ⟨k', v'⟩ := p
      by_cases hk : k' = k
      · subst hk; simp [upsert, lookupName]
      · simp [upsert, lookupName, hk, ih]

theorem lookupName_upsert_other {α : Type} (l : List (String × α))
    (k k' : String) (v : α) (h : k' ≠ k) :
    lookupName k' (upsert l k v) = lookupName k' l := by
  induction l with
  | nil =>
      simp only [upsert, lookupName]
      rw [if_neg (Ne.symm h)]
  | cons p rest ih =>
      obtain ⟨k'', v''⟩ := p
      by_cases hk : k'' = k
      · subst hk
        simp only [upsert, if_pos rfl, lookupName]
        rw [if_neg (Ne.symm h), if_neg (Ne.symm h)]
      · simp only [upsert, if_neg hk, lookupName]
        by_cases hk2 : k'' = k'
        · simp [hk2]
        · rw [if_neg hk2, if_neg hk2, ih]

theorem lookupName_preserved_upsert {α : Type} (l : List (String × α))
    (k k' : String) (v v' : α) (h : lookupName k' l = some v') :
    ∃ w, lookupName k' (upsert l k v) = some w := by
  by_cases hk : k' = k
  · subst hk; exact ⟨v, lookupName_upsert_self l k' v⟩
  · exact ⟨v', by rw [lookupName_upsert_other l k k' v hk]; exact h⟩

/-! Claim theorems. -/

/-- C7: for the per-function local table, `irBasicBlock` returns the
pre-registered basic-block entity bound to the label; an absent label fails
with the unresolved-local error naming that label; a label bound to a local
entity that is not a basic block fails with the local-kind-mismatch
error. -/
theorem claim_C7 (ls : List (String × LocalEntity)) (name : String) :
    (lookupName name ls = none →
      irBasicBlock ls name = .err (.unresolvedLocal name)) ∧
    (∀ b, lookupName name ls = some (.block b) →
      irBasicBlock ls name = .ok b) ∧
    (∀ v, lookupName name ls = some v → (∀ b, v ≠ .block b) →
      irBasicBlock ls name = .err (.localKindMismatch (localEntityText v))) := by
  refine ⟨?_, ?_, ?_⟩
  · intro h; simp [irBasicBlock, h]
  · intro b h; simp [irBasicBlock, h]
  · intro v h hnb
    cases v with
    | param => simp [irBasicBlock, h]
    | block b => exact absurd rfl (hnb b)
    | instResult => simp [irBasicBlock, h]

theorem claim_C7_witness :
    irBasicBlock [("x", .block 7), ("y", .param)] "z" =
      .err (.unresolvedLocal "z") ∧
    irBasicBlock [("x", .block 7), ("y", .param)] "x" = .ok 7 ∧
    irBasicBlock [("x", .block 7), ("y", .param)] "y" =
      .err (.localKindMismatch (localEntityText .param)) :=
  ⟨(claim_C7 [("x", .block 7), ("y", .param)] "z").1 rfl,
   (claim_C7 [("x", .block 7), ("y", .param)] "x").2.1 7 rfl,
   (claim_C7 [("x", .block 7), ("y", .param)] "y").2.2 .param rfl
     (by intro b h; cases h)⟩

/-- C10: during type-definition indexing, a repeated type name is rejected
(with the duplicate-definition error carrying both textual forms) precisely
when the earlier indexed entry for that name is not opaque; when the earlier
entry is opaque, or the name is new, indexing continues with the new entry
overwriting the earlier one in the index. -/
theorem claim_C10 (aliasName : String) (typ : AstType)
    (rest : List TopLevelEntity) (index : List (String × AstType))
    (added order : List String) :
    (∀ prev, lookupName aliasName index = some prev → prev ≠ .opaq →
      indexTypeDefs (.typeDef aliasName typ :: rest) index added order =
        .err (.duplicateDefinition aliasName (astTypeText prev)
          (astTypeText typ))) ∧
    (lookupName aliasName index = some .opaq →
      indexTypeDefs (.typeDef aliasName typ :: rest) index added order =
        indexTypeDefs rest (upsert index aliasName typ)
          (if aliasName ∈ added then added else aliasName :: added)
          (if aliasName ∈ added then order else order ++ [aliasName])) ∧
    (lookupName aliasName index = none →
      indexTypeDefs (.typeDef aliasName typ :: rest) index added order =
        indexTypeDefs rest (upsert index aliasName typ)
          (if aliasName ∈ added then added else aliasName :: added)
          (if aliasName ∈ added then order else order ++ [aliasName])) ∧
    lookupName aliasName (upsert index aliasName typ) = some typ := by
  refine ⟨?_, ?_, ?_, lookupName_upsert_self index aliasName typ⟩
  · intro prev h hne
    rw [indexTypeDefs, h]
    cases prev <;> simp_all
  · intro h
    rw [indexTypeDefs, h]
  · intro h
    rw [indexTypeDefs, h]

theorem claim_C10_witness :
    indexTypeDefs [.typeDef "t" (.int 64)] [("t", AstType.struct [])]
      ["t"] ["t"] =
      .err (.duplicateDefinition "t" (astTypeText (AstType.struct []))
        (astTypeText (AstType.int 64))) ∧
    indexTypeDefs [.typeDef "t" (.int 64)] [("t", AstType.opaq)] ["t"] ["t"] =
      indexTypeDefs [] (upsert [("t", AstType.opaq)] "t" (AstType.int 64))
        ["t"] ["t"] ∧
    lookupName "t" (upsert [("t", AstType.opaq)] "t" (AstType.int 64)) =
      some (AstType.int 64) :=
  ⟨(claim_C10 "t" (AstType.int 64) [] [("t", AstType.struct [])] ["t"]
      ["t"]).1 (AstType.struct []) rfl (by intro h; cases h),
   by
    have h2 := (claim_C10 "t" (AstType.int 64) [] [("t", AstType.opaq)]
      ["t"] ["t"]).2.1 rfl
    simpa using h2,
   (claim_C10 "t" (AstType.int 64) [] [("t", AstType.opaq)]
      ["t"] ["t"]).2.2.2⟩

/-- One chase step of `newIRType` on a bare alias that is not yet visited. -/
theorem newIRType_named_step (gen : GenState) (aliasName name : String)
    (index : List (String × AstType)) (track : List String)
    (hmem : aliasName ∉ track) :
    newIRType gen aliasName (.named name) index track =
      match lookupName name index with
      | none => .panicked .unsupportedConstruct
      | some newTyp => newIRType gen name newTyp index (aliasName :: track) := by
  rw [newIRType.eq_def]
  simp only [hmem, dite_false]
  cases hl : lookupName name index <;> rfl

/-- The cycle check of `newIRType`: revisiting an alias reports the visited
set, sorted. -/
theorem newIRType_cycle (gen : GenState) (aliasName name : String)
    (index : List (String × AstType)) (track : List String)
    (hmem : aliasName ∈ track) :
    newIRType gen aliasName (.named name) index track =
      .err (.cyclicTypeAlias
        (List.insertionSort (· ≤ ·) (track.map encLocal))) := by
  rw [newIRType.eq_def]
  simp only [hmem, dite_true]

/-- Combined chase step: an unvisited alias whose target is present in the
index chases to the target. -/
theorem newIRType_named_some (gen : GenState) (aliasName name : String)
    (index : List (String × AstType)) (track : List String)
    (newTyp : AstType) (hmem : aliasName ∉ track)
    (hl : lookupName name index = some newTyp) :
    newIRType gen aliasName (.named name) index track =
      newIRType gen name newTyp index (aliasName :: track) := by
  rw [newIRType_named_step gen aliasName name index track hmem, hl]

/-- C3: a mutual alias cycle `type A = B; type B = A` (distinct names) makes
skeleton creation — and with it the whole of `resolveTypeDefs` — fail with
the cyclic-type-alias error whose name list contains both `%A` and `%B`, in
deterministic sorted order. -/
theorem claim_C3 (a b : String) (hab : a ≠ b) (permF : List String) :
    resolveTypeDefs [.typeDef a (.named b), .typeDef b (.named a)]
        [a, b] permF initGen =
      .err (.cyclicTypeAlias
        (List.insertionSort (· ≤ ·) [encLocal b, encLocal a])) ∧
    encLocal a ∈ List.insertionSort (α := String) (· ≤ ·)
      [encLocal b, encLocal a] ∧
    encLocal b ∈ List.insertionSort (α := String) (· ≤ ·)
      [encLocal b, encLocal a] ∧
    List.Sorted (· ≤ ·)
      (List.insertionSort (α := String) (· ≤ ·) [encLocal b, encLocal a]) := by
  have hba : b ≠ a := Ne.symm hab
  refine ⟨?_, ?_, ?_, ?_⟩
  · have hidx : indexTypeDefs
        [.typeDef a (.named b), .typeDef b (.named a)] [] [] [] =
        .ok ([(a, AstType.named b), (b, AstType.named a)], [b, a], [a, b]) := by
      simp [indexTypeDefs, lookupName, upsert, hab, hba]
    have l1 : lookupName a [(a, AstType.named b), (b, AstType.named a)] =
        some (AstType.named b) := by simp [lookupName]
    have l2 : lookupName b [(a, AstType.named b), (b, AstType.named a)] =
        some (AstType.named a) := by simp [lookupName, hab]
    simp only [resolveTypeDefs, hidx, Res.ok_bind]
    simp only [typeSkeletonLoop, l1]
    rw [newIRType_named_some _ _ _ _ _ _ (List.not_mem_nil a) l2,
      newIRType_named_some _ _ _ _ _ _ (by simpa using hba) l1,
      newIRType_cycle _ _ _ _ _ (by simp)]
    simp
  · rw [(List.perm_insertionSort _ _).mem_iff]; simp
  · rw [(List.perm_insertionSort _ _).mem_iff]; simp
  · exact List.sorted_insertionSort _ _

theorem claim_C3_witness :
    resolveTypeDefs [.typeDef "a" (.named "b"), .typeDef "b" (.named "a")]
        ["a", "b"] ["a", "b"] initGen =
      .err (.cyclicTypeAlias
        (List.insertionSort (· ≤ ·) [encLocal "b", encLocal "a"])) ∧
    encLocal "a" ∈ List.insertionSort (α := String) (· ≤ ·)
      [encLocal "b", encLocal "a"] ∧
    encLocal "b" ∈ List.insertionSort (α := String) (· ≤ ·)
      [encLocal "b", encLocal "a"] ∧
    List.Sorted (· ≤ ·) (List.insertionSort (α := String) (· ≤ ·)
      [encLocal "b", encLocal "a"]) :=
  claim_C3 "a" "b" (by decide) ["a", "b"]

/-- C4: a type name declared opaque and later defined concretely resolves
without a duplicate error: the module `%T = type opaque; %T = type `(struct
of i32)` succeeds, the node registered for `T` carries the concrete struct
body (one `i32` field, opaque flag cleared), and the type-definition list
has exactly one entry, in first position. -/
theorem claim_C4 (t : String) :
    resolveTypeDefs [.typeDef t .opaq, .typeDef t (.struct [.int 32])]
        [t] [t] initGen =
      .ok ⟨[.structType t false [1] false, .intType "" 32], [], [],
        [(t, 0)], [], [some 0], [], []⟩ ∧
    lookupName t ([(t, 0)] : List (String × Nat)) = some 0 ∧
    (⟨[.structType t false [1] false, .intType "" 32], [], [], [(t, 0)], [],
      [some 0], [], []⟩ : GenState).getType 0 =
      some (.structType t false [1] false) ∧
    (⟨[.structType t false [1] false, .intType "" 32], [], [], [(t, 0)], [],
      [some 0], [], []⟩ : GenState).getType 1 = some (.intType "" 32) := by
  refine ⟨?_, by simp [lookupName], rfl, rfl⟩
  simp [resolveTypeDefs, indexTypeDefs, lookupName, upsert,
    typeSkeletonLoop, newIRType, typeFillLoop, typeAssembly,
    astToIRTypeDef, astToIROpaqueType, irTypeList, astToIRIntType,
    GenState.allocType, GenState.getType, GenState.setType, initGen]

/-- C6: a struct type that embeds a pointer to its own name resolves
without error (and, the resolver being a total function, with termination):
for `%d = type (struct of %d*)` the registered struct node's single field is
a pointer node whose element type is the struct's own node (heap index 0),
closing the recursive structure through the identity table. -/
theorem claim_C6 (d : String) :
    resolveTypeDefs [.typeDef d (.struct [.ptr (.named d) 0])] [d] [d]
        initGen =
      .ok ⟨[.structType d false [1] false, .ptrType "" (some 0) 0], [], [],
        [(d, 0)], [], [some 0], [], []⟩ ∧
    (⟨[.structType d false [1] false, .ptrType "" (some 0) 0], [], [],
      [(d, 0)], [], [some 0], [], []⟩ : GenState).getType 0 =
      some (.structType d false [1] false) ∧
    (⟨[.structType d false [1] false, .ptrType "" (some 0) 0], [], [],
      [(d, 0)], [], [some 0], [], []⟩ : GenState).getType 1 =
      some (.ptrType "" (some 0) 0) := by
  refine ⟨?_, rfl, rfl⟩
  simp [resolveTypeDefs, indexTypeDefs, lookupName, upsert,
    typeSkeletonLoop, newIRType, typeFillLoop, typeAssembly,
    astToIRTypeDef, irTypeList, astToIRNamedType, GenState.allocType,
    GenState.getType, GenState.setType, initGen]

/-- C8 counterexample: the claim says a type reference to an absent name
always fails with the recoverable unresolved-identifier error and never
with a process abort, "including when the absent name is the target of a
bare alias chased during skeleton creation".  But for the module
`%a = type %b` with no `%b`, skeleton creation chases the alias, looks up
the absent target, and the recursive call panics through the
unsupported-construct branch: resolution aborts instead of returning the
recoverable error. -/
theorem claim_C8_counterexample :
    resolveTypeDefs [.typeDef "a" (.named "b")] ["a"] ["a"] initGen =
      .panicked .unsupportedConstruct ∧
    resolveTypeDefs [.typeDef "a" (.named "b")] ["a"] ["a"] initGen ≠
      .err (.unresolvedIdentifier "b") := by
  constructor
  · simp [resolveTypeDefs, indexTypeDefs, lookupName, upsert,
      typeSkeletonLoop, newIRType]
  · simp [resolveTypeDefs, indexTypeDefs, lookupName, upsert,
      typeSkeletonLoop, newIRType]

/-- C8 (amended): a fill-phase type reference naming a type absent from the
type table fails with the recoverable unresolved-identifier error surfaced
with the offending name; but when the absent name is the target of a bare
alias chased during skeleton creation, the resolver aborts fatally through
the unsupported-construct panic instead. -/
theorem claim_C8 :
    (∀ (gen : GenState) (t : Option Nat) (name : String),
      lookupName name gen.ts = none →
      astToIRNamedType gen t name = .err (.unresolvedIdentifier name)) ∧
    (∀ (gen : GenState) (aliasName target : String)
      (index : List (String × AstType)) (track : List String),
      aliasName ∉ track → lookupName target index = none →
      newIRType gen aliasName (.named target) index track =
        .panicked .unsupportedConstruct) := by
  constructor
  · intro gen t name hl
    simp [astToIRNamedType, hl]
  · intro gen aliasName target index track hmem hl
    rw [newIRType_named_step gen aliasName target index track hmem, hl]

theorem claim_C8_witness :
    astToIRNamedType initGen none "x" = .err (.unresolvedIdentifier "x") ∧
    newIRType initGen "a" (.named "b") [] [] =
      .panicked .unsupportedConstruct :=
  ⟨claim_C8.1 initGen none "x" rfl,
   claim_C8.2 initGen "a" "b" [] [] (List.not_mem_nil "a") rfl⟩

/-- C1 counterexample: the claim says the node returned for a skeleton by
the fill phase is always the very node the fill phase was given — including
for a bare-alias type definition.  In the module `%a = type %b; %b = type
i32`, the skeleton registered for `a` is a freshly created copy (heap index
0, a second `i32` node whose bit size is never populated), and the fill call
for `a`'s definition returns the node registered for `b` (heap index 1),
not the skeleton (index 0) it was given. -/
theorem claim_C1_counterexample :
    resolveTypeDefs aliasPairEntities ["a", "b"] ["a", "b"] initGen =
      .ok aliasPairGen ∧
    lookupName "a" aliasPairGen.ts = some 0 ∧
    lookupName "b" aliasPairGen.ts = some 1 ∧
    astToIRTypeDef aliasPairGen (some 0) (.named "b") =
      .ok (1, aliasPairGen) ∧
    (1 : Nat) ≠ 0 ∧
    aliasPairGen.getType 0 = some (.intType "b" 0) := by
  refine ⟨?_, rfl, rfl, rfl, by decide, rfl⟩
  simp [resolveTypeDefs, indexTypeDefs, lookupName, upsert, aliasPairEntities,
    typeSkeletonLoop, newIRType, typeFillLoop, typeAssembly, astToIRTypeDef,
    astToIRNamedType, astToIRIntType, GenState.allocType, GenState.getType,
    GenState.setType, initGen, aliasPairGen]

/-- C1 (amended): every reference to a type name resolves, through the
identity table, to the single node registered for that name (the fill-phase
handler ignores the node it is given and returns the table entry), and for
every type definition whose body is not a bare alias the fill phase mutates
the registered skeleton in place, returning exactly the node it was given;
for a bare-alias definition the registered skeleton is a freshly created
chased copy and the fill call returns the target's node instead. -/
theorem claim_C1_theorem :
    (∀ (gen : GenState) (t : Option Nat) (name : String) (a : Nat),
      lookupName name gen.ts = some a →
      astToIRNamedType gen t name = .ok (a, gen)) ∧
    (∀ (gen : GenState) (t : Nat) (old : AstType) (r : Nat)
      (gen' : GenState), (∀ n, old ≠ AstType.named n) →
      astToIRTypeDef gen (some t) old = .ok (r, gen') → r = t) := by
  constructor
  · intro gen t name a hl
    simp [astToIRNamedType, hl]
  · intro gen t old r gen' h hok
    cases old with
    | named n => exact absurd rfl (h n)
    | _ =>
        simp only [astToIRTypeDef, astToIRVoidType, astToIRIntType,
          astToIRFloatType, astToIRMMXType, astToIRLabelType,
          astToIRTokenType, astToIRMetadataType, astToIROpaqueType] at hok
        repeat' split at hok
        all_goals try simp only [Res.ok_bind, Res.panicked_bind] at hok
        all_goals
          first
          | (repeat obtain ⟨⟨x1, x2⟩, _, hok⟩ := Res.bind_eq_ok hok
             injection hok with hpq
             injection hpq with h1 h2
             exact h1.symm)
          | simp at hok

theorem claim_C1_witness :
    astToIRNamedType (⟨[], [], [], [("x", 5)], [], [], [], []⟩ : GenState)
      none "x" =
      .ok (5, (⟨[], [], [], [("x", 5)], [], [], [], []⟩ : GenState)) ∧
    (0 : Nat) = 0 :=
  ⟨claim_C1_theorem.1 ⟨[], [], [], [("x", 5)], [], [], [], []⟩ none "x" 5 rfl,
   claim_C1_theorem.2 (⟨[.voidType ""], [], [], [], [], [], [], []⟩ : GenState)
     0 .void 0 ⟨[.voidType ""], [], [], [], [], [], [], []⟩
     (by intro n hc; cases hc) rfl⟩

/-- A bound computation avoids a panic if both stages avoid it. -/
theorem Res.bind_ne_panicked {α β : Type} {x : Res α} {f : α → Res β}
    {p : PanicKind} (hx : x ≠ .panicked p) (hf : ∀ a, f a ≠ .panicked p) :
    (x >>= f) ≠ .panicked p := by
  cases x with
  | ok a => exact hf a
  | err e => simp
  | panicked q =>
      intro hc
      exact hx (by simpa using hc)

mutual
/-- A fill-phase translation given a nil node (`gen.irType`) never reaches a
kind-mismatch panic: the type-assertion branches require a non-nil node. -/
theorem fillNone_no_km (gen : GenState) (old : AstType) :
    astToIRTypeDef gen none old ≠ .panicked .kindMismatch := by
  cases old with
  | opaq => simp [astToIRTypeDef, astToIROpaqueType]
  | array len elem =>
      simp only [astToIRTypeDef, GenState.allocType, Res.ok_bind]
      refine Res.bind_ne_panicked (fillNone_no_km _ elem) ?_
      rintro ⟨ea, g⟩
      simp
  | float kind => simp [astToIRTypeDef, astToIRFloatType, GenState.allocType]
  | func ret params variadic =>
      simp only [astToIRTypeDef, GenState.allocType, Res.ok_bind]
      refine Res.bind_ne_panicked (fillNone_no_km _ ret) ?_
      rintro ⟨ra, g⟩
      refine Res.bind_ne_panicked (fillListNone_no_km _ params) ?_
      rintro ⟨ps, g2⟩
      simp
  | int bitSize => simp [astToIRTypeDef, astToIRIntType, GenState.allocType]
  | label => simp [astToIRTypeDef, astToIRLabelType, GenState.allocType]
  | mmx => simp [astToIRTypeDef, astToIRMMXType, GenState.allocType]
  | metadata =>
      simp [astToIRTypeDef, astToIRMetadataType, GenState.allocType]
  | named name =>
      simp only [astToIRTypeDef, astToIRNamedType]
      split <;> simp
  | ptr elem addrSpace =>
      simp only [astToIRTypeDef, GenState.allocType, Res.ok_bind]
      refine Res.bind_ne_panicked (fillNone_no_km _ elem) ?_
      rintro ⟨ea, g⟩
      simp
  | struct fields =>
      simp only [astToIRTypeDef, GenState.allocType, Res.ok_bind]
      refine Res.bind_ne_panicked (fillListNone_no_km _ fields) ?_
      rintro ⟨fs, g⟩
      simp
  | packedStruct fields =>
      simp only [astToIRTypeDef, GenState.allocType, Res.ok_bind]
      refine Res.bind_ne_panicked (fillListNone_no_km _ fields) ?_
      rintro ⟨fs, g⟩
      simp
  | token => simp [astToIRTypeDef, astToIRTokenType, GenState.allocType]
  | vector len elem =>
      simp only [astToIRTypeDef, GenState.allocType, Res.ok_bind]
      refine Res.bind_ne_panicked (fillNone_no_km _ elem) ?_
      rintro ⟨ea, g⟩
      simp
  | void => simp [astToIRTypeDef, astToIRVoidType, GenState.allocType]

/-- The element loop of the fill phase never reaches a kind-mismatch
panic. -/
theorem fillListNone_no_km (gen : GenState) (olds : List AstType) :
    irTypeList gen olds ≠ .panicked .kindMismatch := by
  cases olds with
  | nil => simp [irTypeList]
  | cons o rest =>
      simp only [irTypeList]
      refine Res.bind_ne_panicked (fillNone_no_km _ o) ?_
      rintro ⟨a, g⟩
      refine Res.bind_ne_panicked (fillListNone_no_km _ rest) ?_
      rintro ⟨as, g2⟩
      simp
end

/-- A fill-phase call whose given node's runtime kind agrees with the AST
node's kind never reaches a kind-mismatch panic. -/
theorem fillMatched_no_km (gen : GenState) (a : Nat) (node : TypeNode)
    (old : AstType) (hget : gen.getType a = some node)
    (hm : nodeMatchesAst node old = true) :
    astToIRTypeDef gen (some a) old ≠ .panicked .kindMismatch := by
  cases old with
  | named n =>
      simp only [astToIRTypeDef, astToIRNamedType]
      split <;> simp
  | opaq =>
      cases node <;> try (simp [nodeMatchesAst] at hm)
      simp [astToIRTypeDef, astToIROpaqueType, hget]
  | float kind =>
      cases node <;> try (simp [nodeMatchesAst] at hm)
      simp [astToIRTypeDef, astToIRFloatType, hget]
  | int bitSize =>
      cases node <;> try (simp [nodeMatchesAst] at hm)
      simp [astToIRTypeDef, astToIRIntType, hget]
  | label =>
      cases node <;> try (simp [nodeMatchesAst] at hm)
      simp [astToIRTypeDef, astToIRLabelType, hget]
  | mmx =>
      cases node <;> try (simp [nodeMatchesAst] at hm)
      simp [astToIRTypeDef, astToIRMMXType, hget]
  | metadata =>
      cases node <;> try (simp [nodeMatchesAst] at hm)
      simp [astToIRTypeDef, astToIRMetadataType, hget]
  | token =>
      cases node <;> try (simp [nodeMatchesAst] at hm)
      simp [astToIRTypeDef, astToIRTokenType, hget]
  | void =>
      cases node <;> try (simp [nodeMatchesAst] at hm)
      simp [astToIRTypeDef, astToIRVoidType, hget]
  | array len elem =>
      cases node <;> try (simp [nodeMatchesAst] at hm)
      simp only [astToIRTypeDef, hget, Res.ok_bind]
      refine Res.bind_ne_panicked (fillNone_no_km _ elem) ?_
      rintro ⟨ea, g⟩
      simp
  | ptr elem addrSpace =>
      cases node <;> try (simp [nodeMatchesAst] at hm)
      simp only [astToIRTypeDef, hget, Res.ok_bind]
      refine Res.bind_ne_panicked (fillNone_no_km _ elem) ?_
      rintro ⟨ea, g⟩
      simp
  | vector len elem =>
      cases node <;> try (simp [nodeMatchesAst] at hm)
      simp only [astToIRTypeDef, hget, Res.ok_bind]
      refine Res.bind_ne_panicked (fillNone_no_km _ elem) ?_
      rintro ⟨ea, g⟩
      simp
  | func ret params variadic =>
      cases node <;> try (simp [nodeMatchesAst] at hm)
      simp only [astToIRTypeDef, hget, Res.ok_bind]
      refine Res.bind_ne_panicked (fillNone_no_km _ ret) ?_
      rintro ⟨ra, g⟩
      refine Res.bind_ne_panicked (fillListNone_no_km _ params) ?_
      rintro ⟨ps, g2⟩
      simp
  | struct fields =>
      cases node <;> try (simp [nodeMatchesAst] at hm)
      simp only [astToIRTypeDef, hget, Res.ok_bind]
      refine Res.bind_ne_panicked (fillListNone_no_km _ fields) ?_
      rintro ⟨fs, g⟩
      simp
  | packedStruct fields =>
      cases node <;> try (simp [nodeMatchesAst] at hm)
      simp only [astToIRTypeDef, hget, Res.ok_bind]
      refine Res.bind_ne_panicked (fillListNone_no_km _ fields) ?_
      rintro ⟨fs, g⟩
      simp

/-- C9: when a fill-phase call's skeleton node disagrees in runtime kind
with the raw AST node (shown for the function-type handler and the
global-declaration handler, the two assertion sites), the resolver aborts
through the fatal panic channel, not the recoverable error return; and
under the precondition that the skeleton was produced by the skeleton phase
from the same raw node, that abort branch is unreachable (a named-type
reference, whose skeleton is a chased node, has no such branch at all). -/
theorem claim_C9 :
    (∀ (gen : GenState) (a : Nat) (node : TypeNode) (ret : AstType)
      (params : List AstType) (variadic : Bool),
      gen.getType a = some node → node.isFuncNode = false →
      astToIRTypeDef gen (some a) (.func ret params variadic) =
        .panicked .kindMismatch) ∧
    (∀ (gen : GenState) (g : Nat) (node : GlobalNode),
      gen.getGlobal g = some node → node.isVarNode = false →
      astToIRGlobalDecl gen g = .panicked .kindMismatch) ∧
    (∀ (gen gen' : GenState) (aliasName : String) (old : AstType)
      (index : List (String × AstType)) (track : List String) (a : Nat),
      (∀ n, old ≠ AstType.named n) →
      newIRType gen aliasName old index track = .ok (a, gen') →
      astToIRTypeDef gen' (some a) old ≠ .panicked .kindMismatch) ∧
    (∀ (gen : GenState) (t : Option Nat) (name : String) (p : PanicKind),
      astToIRNamedType gen t name ≠ .panicked p) := by
  refine ⟨?_, ?_, ?_, ?_⟩
  · intro gen a node ret params variadic hget hfun
    cases node <;> simp_all [astToIRTypeDef, TypeNode.isFuncNode]
  · intro gen g node hget hvar
    cases node <;> simp_all [astToIRGlobalDecl, GlobalNode.isVarNode]
  · intro gen gen' aliasName old index track a hnn h
    cases old with
    | named n => exact absurd rfl (hnn n)
    | opaq =>
        simp only [newIRType, GenState.allocType, Res.ok.injEq,
          Prod.mk.injEq] at h
        obtain ⟨ha, hgen⟩ := h
        subst hgen
        exact fillMatched_no_km _ a (TypeNode.structType aliasName false [] false) _
          (by simp [GenState.getType, ← ha, List.getElem?_concat_length])
          rfl
    | array len elem =>
        simp only [newIRType, GenState.allocType, Res.ok.injEq,
          Prod.mk.injEq] at h
        obtain ⟨ha, hgen⟩ := h
        subst hgen
        exact fillMatched_no_km _ a (TypeNode.arrayType aliasName 0 none) _
          (by simp [GenState.getType, ← ha, List.getElem?_concat_length])
          rfl
    | float kind =>
        simp only [newIRType, GenState.allocType, Res.ok.injEq,
          Prod.mk.injEq] at h
        obtain ⟨ha, hgen⟩ := h
        subst hgen
        exact fillMatched_no_km _ a (TypeNode.floatType aliasName .half) _
          (by simp [GenState.getType, ← ha, List.getElem?_concat_length])
          rfl
    | func ret params variadic =>
        simp only [newIRType, GenState.allocType, Res.ok.injEq,
          Prod.mk.injEq] at h
        obtain ⟨ha, hgen⟩ := h
        subst hgen
        exact fillMatched_no_km _ a (TypeNode.funcType aliasName none [] false) _
          (by simp [GenState.getType, ← ha, List.getElem?_concat_length])
          rfl
    | int bitSize =>
        simp only [newIRType, GenState.allocType, Res.ok.injEq,
          Prod.mk.injEq] at h
        obtain ⟨ha, hgen⟩ := h
        subst hgen
        exact fillMatched_no_km _ a (TypeNode.intType aliasName 0) _
          (by simp [GenState.getType, ← ha, List.getElem?_concat_length])
          rfl
    | label =>
        simp only [newIRType, GenState.allocType, Res.ok.injEq,
          Prod.mk.injEq] at h
        obtain ⟨ha, hgen⟩ := h
        subst hgen
        exact fillMatched_no_km _ a (TypeNode.labelType aliasName) _
          (by simp [GenState.getType, ← ha, List.getElem?_concat_length])
          rfl
    | mmx =>
        simp only [newIRType, GenState.allocType, Res.ok.injEq,
          Prod.mk.injEq] at h
        obtain ⟨ha, hgen⟩ := h
        subst hgen
        exact fillMatched_no_km _ a (TypeNode.mmxType aliasName) _
          (by simp [GenState.getType, ← ha, List.getElem?_concat_length])
          rfl
    | metadata =>
        simp only [newIRType, GenState.allocType, Res.ok.injEq,
          Prod.mk.injEq] at h
        obtain ⟨ha, hgen⟩ := h
        subst hgen
        exact fillMatched_no_km _ a (TypeNode.metadataType aliasName) _
          (by simp [GenState.getType, ← ha, List.getElem?_concat_length])
          rfl
    | ptr elem addrSpace =>
        simp only [newIRType, GenState.allocType, Res.ok.injEq,
          Prod.mk.injEq] at h
        obtain ⟨ha, hgen⟩ := h
        subst hgen
        exact fillMatched_no_km _ a (TypeNode.ptrType aliasName none 0) _
          (by simp [GenState.getType, ← ha, List.getElem?_concat_length])
          rfl
    | struct fields =>
        simp only [newIRType, GenState.allocType, Res.ok.injEq,
          Prod.mk.injEq] at h
        obtain ⟨ha, hgen⟩ := h
        subst hgen
        exact fillMatched_no_km _ a (TypeNode.structType aliasName false [] false) _
          (by simp [GenState.getType, ← ha, List.getElem?_concat_length])
          rfl
    | packedStruct fields =>
        simp only [newIRType, GenState.allocType, Res.ok.injEq,
          Prod.mk.injEq] at h
        obtain ⟨ha, hgen⟩ := h
        subst hgen
        exact fillMatched_no_km _ a (TypeNode.structType aliasName false [] false) _
          (by simp [GenState.getType, ← ha, List.getElem?_concat_length])
          rfl
    | token =>
        simp only [newIRType, GenState.allocType, Res.ok.injEq,
          Prod.mk.injEq] at h
        obtain ⟨ha, hgen⟩ := h
        subst hgen
        exact fillMatched_no_km _ a (TypeNode.tokenType aliasName) _
          (by simp [GenState.getType, ← ha, List.getElem?_concat_length])
          rfl
    | vector len elem =>
        simp only [newIRType, GenState.allocType, Res.ok.injEq,
          Prod.mk.injEq] at h
        obtain ⟨ha, hgen⟩ := h
        subst hgen
        exact fillMatched_no_km _ a (TypeNode.vectorType aliasName 0 none) _
          (by simp [GenState.getType, ← ha, List.getElem?_concat_length])
          rfl
    | void =>
        simp only [newIRType, GenState.allocType, Res.ok.injEq,
          Prod.mk.injEq] at h
        obtain ⟨ha, hgen⟩ := h
        subst hgen
        exact fillMatched_no_km _ a (TypeNode.voidType aliasName) _
          (by simp [GenState.getType, ← ha, List.getElem?_concat_length])
          rfl
  · intro gen t name p
    simp only [astToIRNamedType]
    split <;> simp

theorem claim_C9_witness :
    astToIRTypeDef (⟨[.voidType ""], [], [], [], [], [], [], []⟩ : GenState)
      (some 0) (.func .void [] false) = .panicked .kindMismatch ∧
    astToIRGlobalDecl
      (⟨[], [.functionNode "f" none none [] []], [], [], [], [], [], []⟩ :
        GenState) 0 = .panicked .kindMismatch ∧
    astToIRTypeDef (⟨[.voidType "x"], [], [], [], [], [], [], []⟩ : GenState)
      (some 0) .void ≠ .panicked .kindMismatch ∧
    astToIRNamedType initGen none "q" ≠ .panicked .kindMismatch :=
  ⟨claim_C9.1 ⟨[.voidType ""], [], [], [], [], [], [], []⟩ 0 (.voidType "")
      .void [] false rfl rfl,
   claim_C9.2.1 ⟨[], [.functionNode "f" none none [] []], [], [], [], [],
      [], []⟩ 0 (.functionNode "f" none none [] []) rfl rfl,
   claim_C9.2.2.1 initGen ⟨[.voidType "x"], [], [], [], [], [], [], []⟩
      "x" .void [] [] 0 (by intro n hc; cases hc)
      (by simp [newIRType, GenState.allocType, initGen]),
   claim_C9.2.2.2 initGen none "q" .kindMismatch⟩

/-- If indexing the globals succeeds, the shared global/function namespace
had no repeated name (and none that collided with the incoming index). -/
theorem indexGlobals_ok_inv :
    ∀ (entities : List TopLevelEntity)
      (index : List (String × TopLevelEntity)) (g f : List String) r,
      indexGlobals entities index g f = .ok r →
      (globalFuncNames entities).Nodup ∧
      ∀ n ∈ globalFuncNames entities, lookupName n index = none := by
  intro entities
  induction entities with
  | nil =>
      intro index g f r _
      exact ⟨List.nodup_nil, by simp [globalFuncNames]⟩
  | cons e rest ih =>
      intro index g f r h
      cases e with
      | typeDef al ty =>
          simp only [indexGlobals] at h
          have h2 := ih _ _ _ _ h
          simpa [globalFuncNames] using h2
      | otherEntity =>
          simp only [indexGlobals] at h
          have h2 := ih _ _ _ _ h
          simpa [globalFuncNames] using h2
      | globalDecl name ct =>
          simp only [indexGlobals] at h
          cases hl : lookupName name index with
          | some prev => simp [hl] at h
          | none =>
              simp only [hl] at h
              obtain ⟨hnd, hlk⟩ := ih _ _ _ _ h
              constructor
              · simp only [globalFuncNames]
                refine List.nodup_cons.mpr ⟨?_, hnd⟩
                intro hmem
                have h3 := hlk name hmem
                rw [lookupName_upsert_self] at h3
                cases h3
              · intro n hn
                simp only [globalFuncNames, List.mem_cons] at hn
                rcases hn with rfl | hn'
                · exact hl
                · by_cases heq : n = name
                  · have h3 := hlk n hn'
                    rw [heq, lookupName_upsert_self] at h3
                    cases h3
                  · have h3 := hlk n hn'
                    rwa [lookupName_upsert_other _ _ _ _ heq] at h3
      | globalDef name ct init =>
          simp only [indexGlobals] at h
          cases hl : lookupName name index with
          | some prev => simp [hl] at h
          | none =>
              simp only [hl] at h
              obtain ⟨hnd, hlk⟩ := ih _ _ _ _ h
              constructor
              · simp only [globalFuncNames]
                refine List.nodup_cons.mpr ⟨?_, hnd⟩
                intro hmem
                have h3 := hlk name hmem
                rw [lookupName_upsert_self] at h3
                cases h3
              · intro n hn
                simp only [globalFuncNames, List.mem_cons] at hn
                rcases hn with rfl | hn'
                · exact hl
                · by_cases heq : n = name
                  · have h3 := hlk n hn'
                    rw [heq, lookupName_upsert_self] at h3
                    cases h3
                  · have h3 := hlk n hn'
                    rwa [lookupName_upsert_other _ _ _ _ heq] at h3
      | funcDecl header =>
          simp only [indexGlobals] at h
          cases hl : lookupName header.name index with
          | some prev => simp [hl] at h
          | none =>
              simp only [hl] at h
              obtain ⟨hnd, hlk⟩ := ih _ _ _ _ h
              constructor
              · simp only [globalFuncNames]
                refine List.nodup_cons.mpr ⟨?_, hnd⟩
                intro hmem
                have h3 := hlk header.name hmem
                rw [lookupName_upsert_self] at h3
                cases h3
              · intro n hn
                simp only [globalFuncNames, List.mem_cons] at hn
                rcases hn with rfl | hn'
                · exact hl
                · by_cases heq : n = header.name
                  · have h3 := hlk n hn'
                    rw [heq, lookupName_upsert_self] at h3
                    cases h3
                  · have h3 := hlk n hn'
                    rwa [lookupName_upsert_other _ _ _ _ heq] at h3
      | funcDef header body =>
          simp only [indexGlobals] at h
          cases hl : lookupName header.name index with
          | some prev => simp [hl] at h
          | none =>
              simp only [hl] at h
              obtain ⟨hnd, hlk⟩ := ih _ _ _ _ h
              constructor
              · simp only [globalFuncNames]
                refine List.nodup_cons.mpr ⟨?_, hnd⟩
                intro hmem
                have h3 := hlk header.name hmem
                rw [lookupName_upsert_self] at h3
                cases h3
              · intro n hn
                simp only [globalFuncNames, List.mem_cons] at hn
                rcases hn with rfl | hn'
                · exact hl
                · by_cases heq : n = header.name
                  · have h3 := hlk n hn'
                    rw [heq, lookupName_upsert_self] at h3
                    cases h3
                  · have h3 := hlk n hn'
                    rwa [lookupName_upsert_other _ _ _ _ heq] at h3

/-- The only error the global indexing loop produces is a
duplicate-definition error, and it never panics. -/
theorem indexGlobals_fail_shape :
    ∀ (entities : List TopLevelEntity)
      (index : List (String × TopLevelEntity)) (g f : List String),
      (∀ e, indexGlobals entities index g f = .err e →
        ∃ n p q, e = .duplicateDefinition n p q) ∧
      ∀ p, indexGlobals entities index g f ≠ .panicked p := by
  intro entities
  induction entities with
  | nil =>
      intro index g f
      constructor
      · intro e h; cases h
      · intro p h; cases h
  | cons e rest ih =>
      intro index g f
      cases e with
      | typeDef al ty => exact ih _ _ _
      | otherEntity => exact ih _ _ _
      | globalDecl name ct =>
          constructor
          · intro er h
            simp only [indexGlobals] at h
            cases hl : lookupName name index with
            | some prev =>
                simp only [hl] at h
                exact ⟨name, _, _, by cases h; rfl⟩
            | none =>
                simp only [hl] at h
                exact (ih _ _ _).1 er h
          · intro p h
            simp only [indexGlobals] at h
            cases hl : lookupName name index with
            | some prev => simp [hl] at h
            | none =>
                simp only [hl] at h
                exact (ih _ _ _).2 p h
      | globalDef name ct init =>
          constructor
          · intro er h
            simp only [indexGlobals] at h
            cases hl : lookupName name index with
            | some prev =>
                simp only [hl] at h
                exact ⟨name, _, _, by cases h; rfl⟩
            | none =>
                simp only [hl] at h
                exact (ih _ _ _).1 er h
          · intro p h
            simp only [indexGlobals] at h
            cases hl : lookupName name index with
            | some prev => simp [hl] at h
            | none =>
                simp only [hl] at h
                exact (ih _ _ _).2 p h
      | funcDecl header =>
          constructor
          · intro er h
            simp only [indexGlobals] at h
            cases hl : lookupName header.name index with
            | some prev =>
                simp only [hl] at h
                exact ⟨header.name, _, _, by cases h; rfl⟩
            | none =>
                simp only [hl] at h
                exact (ih _ _ _).1 er h
          · intro p h
            simp only [indexGlobals] at h
            cases hl : lookupName header.name index with
            | some prev => simp [hl] at h
            | none =>
                simp only [hl] at h
                exact (ih _ _ _).2 p h
      | funcDef header body =>
          constructor
          · intro er h
            simp only [indexGlobals] at h
            cases hl : lookupName header.name index with
            | some prev =>
                simp only [hl] at h
                exact ⟨header.name, _, _, by cases h; rfl⟩
            | none =>
                simp only [hl] at h
                exact (ih _ _ _).1 er h
          · intro p h
            simp only [indexGlobals] at h
            cases hl : lookupName header.name index with
            | some prev => simp [hl] at h
            | none =>
                simp only [hl] at h
                exact (ih _ _ _).2 p h

/-- C5: whenever a name occurs more than once in the shared global/function
identifier namespace — a declaration followed by a definition of the same
name, or a global variable sharing a name with a function, included —
resolution of the globals fails with a duplicate-definition error carrying
both textual forms. -/
theorem claim_C5 (entities : List TopLevelEntity)
    (permS permF : List String) (gen : GenState)
    (h : ¬ (globalFuncNames entities).Nodup) :
    ∃ n p q, resolveGlobals entities permS permF gen =
      .err (.duplicateDefinition n p q) := by
  rcases hres : indexGlobals entities [] [] [] with r | e | p
  · exact absurd (indexGlobals_ok_inv entities [] [] [] r hres).1 h
  · obtain ⟨n, p', q, rfl⟩ :=
      (indexGlobals_fail_shape entities [] [] []).1 e hres
    exact ⟨n, p', q, by simp [resolveGlobals, hres]⟩
  · exact absurd hres ((indexGlobals_fail_shape entities [] [] []).2 p)

theorem claim_C5_witness :
    (∃ n p q,
      resolveGlobals
        [.globalDecl "x" (.int 8), .globalDef "x" (.int 8) (.intLit 0)]
        ["x"] ["x"] initGen = .err (.duplicateDefinition n p q)) ∧
    (∃ n p q,
      resolveGlobals
        [.globalDef "y" (.int 8) (.intLit 0), .funcDecl ⟨"y", .void, [], false⟩]
        ["y"] ["y"] initGen = .err (.duplicateDefinition n p q)) :=
  ⟨claim_C5 [.globalDecl "x" (.int 8), .globalDef "x" (.int 8) (.intLit 0)]
      ["x"] ["x"] initGen (by decide),
   claim_C5 [.globalDef "y" (.int 8) (.intLit 0),
      .funcDecl ⟨"y", .void, [], false⟩] ["y"] ["y"] initGen (by decide)⟩

theorem framePreserved_refl (gen : GenState) : framePreserved gen gen :=
  ⟨rfl, rfl, rfl, rfl, rfl, rfl, rfl⟩

theorem framePreserved_trans {g1 g2 g3 : GenState}
    (h12 : framePreserved g1 g2) (h23 : framePreserved g2 g3) :
    framePreserved g1 g3 := by
  obtain ⟨a1, a2, a3, a4, a5, a6, a7⟩ := h12
  obtain ⟨b1, b2, b3, b4, b5, b6, b7⟩ := h23
  exact ⟨b1.trans a1, b2.trans a2, b3.trans a3, b4.trans a4, b5.trans a5,
    b6.trans a6, b7.trans a7⟩

/-- A bare alias whose chase target is absent from the index aborts. -/
theorem newIRType_named_absent (gen : GenState) (aliasName target : String)
    (index : List (String × AstType)) (track : List String)
    (hmem : aliasName ∉ track) (hl : lookupName target index = none) :
    newIRType gen aliasName (.named target) index track =
      .panicked .unsupportedConstruct := by
  rw [newIRType_named_step gen aliasName target index track hmem, hl]

mutual
/-- A successful fill-phase translation touches only the type heap. -/
theorem fill_frame :
    ∀ (gen : GenState) (t : Option Nat) (old : AstType) (a : Nat)
      (gen' : GenState), astToIRTypeDef gen t old = .ok (a, gen') →
      framePreserved gen gen' := by
  intro gen t old a gen' h
  cases old with
  | opaq =>
      simp only [astToIRTypeDef, astToIROpaqueType] at h
      repeat' split at h
      all_goals
        first
        | (injection h with hp; injection hp with hh1 hh2; subst hh2
           simp [framePreserved, GenState.setType])
        | (exact absurd h (by simp))
  | float kind =>
      simp only [astToIRTypeDef, astToIRFloatType, GenState.allocType] at h
      repeat' split at h
      all_goals
        first
        | (injection h with hp; injection hp with hh1 hh2; subst hh2
           simp [framePreserved, GenState.setType])
        | (exact absurd h (by simp))
  | int bitSize =>
      simp only [astToIRTypeDef, astToIRIntType, GenState.allocType] at h
      repeat' split at h
      all_goals
        first
        | (injection h with hp; injection hp with hh1 hh2; subst hh2
           simp [framePreserved, GenState.setType])
        | (exact absurd h (by simp))
  | label =>
      simp only [astToIRTypeDef, astToIRLabelType, GenState.allocType] at h
      repeat' split at h
      all_goals
        first
        | (injection h with hp; injection hp with hh1 hh2; subst hh2
           simp [framePreserved])
        | (exact absurd h (by simp))
  | mmx =>
      simp only [astToIRTypeDef, astToIRMMXType, GenState.allocType] at h
      repeat' split at h
      all_goals
        first
        | (injection h with hp; injection hp with hh1 hh2; subst hh2
           simp [framePreserved])
        | (exact absurd h (by simp))
  | metadata =>
      simp only [astToIRTypeDef, astToIRMetadataType, GenState.allocType] at h
      repeat' split at h
      all_goals
        first
        | (injection h with hp; injection hp with hh1 hh2; subst hh2
           simp [framePreserved])
        | (exact absurd h (by simp))
  | token =>
      simp only [astToIRTypeDef, astToIRTokenType, GenState.allocType] at h
      repeat' split at h
      all_goals
        first
        | (injection h with hp; injection hp with hh1 hh2; subst hh2
           simp [framePreserved])
        | (exact absurd h (by simp))
  | void =>
      simp only [astToIRTypeDef, astToIRVoidType, GenState.allocType] at h
      repeat' split at h
      all_goals
        first
        | (injection h with hp; injection hp with hh1 hh2; subst hh2
           simp [framePreserved])
        | (exact absurd h (by simp))
  | named n =>
      simp only [astToIRTypeDef, astToIRNamedType] at h
      repeat' split at h
      all_goals
        first
        | (injection h with hp; injection hp with hh1 hh2; subst hh2
           simp [framePreserved])
        | (exact absurd h (by simp))
  | array len elem =>
      simp only [astToIRTypeDef, GenState.allocType] at h
      repeat' split at h
      all_goals simp only [Res.ok_bind, Res.panicked_bind] at h
      all_goals
        first
        | (rcases Res.bind_eq_ok h with ⟨⟨ea, g1⟩, h1, h2⟩
           injection h2 with hp
           injection hp with hh1 hh2
           subst hh2
           exact framePreserved_trans
             (framePreserved_trans (by simp [framePreserved])
               (fill_frame _ _ _ _ _ h1))
             (by simp [framePreserved, GenState.setType]))
        | (exact absurd h (by simp))
  | ptr elem addrSpace =>
      simp only [astToIRTypeDef, GenState.allocType] at h
      repeat' split at h
      all_goals simp only [Res.ok_bind, Res.panicked_bind] at h
      all_goals
        first
        | (rcases Res.bind_eq_ok h with ⟨⟨ea, g1⟩, h1, h2⟩
           injection h2 with hp
           injection hp with hh1 hh2
           subst hh2
           exact framePreserved_trans
             (framePreserved_trans (by simp [framePreserved])
               (fill_frame _ _ _ _ _ h1))
             (by simp [framePreserved, GenState.setType]))
        | (exact absurd h (by simp))
  | vector len elem =>
      simp only [astToIRTypeDef, GenState.allocType] at h
      repeat' split at h
      all_goals simp only [Res.ok_bind, Res.panicked_bind] at h
      all_goals
        first
        | (rcases Res.bind_eq_ok h with ⟨⟨ea, g1⟩, h1, h2⟩
           injection h2 with hp
           injection hp with hh1 hh2
           subst hh2
           exact framePreserved_trans
             (framePreserved_trans (by simp [framePreserved])
               (fill_frame _ _ _ _ _ h1))
             (by simp [framePreserved, GenState.setType]))
        | (exact absurd h (by simp))
  | struct fields =>
      simp only [astToIRTypeDef, GenState.allocType] at h
      repeat' split at h
      all_goals simp only [Res.ok_bind, Res.panicked_bind] at h
      all_goals
        first
        | (rcases Res.bind_eq_ok h with ⟨⟨fs, g1⟩, h1, h2⟩
           injection h2 with hp
           injection hp with hh1 hh2
           subst hh2
           exact framePreserved_trans
             (framePreserved_trans (by simp [framePreserved])
               (fillList_frame _ _ _ _ h1))
             (by simp [framePreserved, GenState.setType]))
        | (exact absurd h (by simp))
  | packedStruct fields =>
      simp only [astToIRTypeDef, GenState.allocType] at h
      repeat' split at h
      all_goals simp only [Res.ok_bind, Res.panicked_bind] at h
      all_goals
        first
        | (rcases Res.bind_eq_ok h with ⟨⟨fs, g1⟩, h1, h2⟩
           injection h2 with hp
           injection hp with hh1 hh2
           subst hh2
           exact framePreserved_trans
             (framePreserved_trans (by simp [framePreserved])
               (fillList_frame _ _ _ _ h1))
             (by simp [framePreserved, GenState.setType]))
        | (exact absurd h (by simp))
  | func ret params variadic =>
      simp only [astToIRTypeDef, GenState.allocType] at h
      repeat' split at h
      all_goals simp only [Res.ok_bind, Res.panicked_bind] at h
      all_goals
        first
        | (rcases Res.bind_eq_ok h with ⟨⟨ra, g1⟩, h1, h2⟩
           rcases Res.bind_eq_ok h2 with ⟨⟨ps, g2⟩, h1b, h2b⟩
           injection h2b with hp
           injection hp with hh1 hh2
           subst hh2
           exact framePreserved_trans
             (framePreserved_trans
               (framePreserved_trans (by simp [framePreserved])
                 (fill_frame _ _ _ _ _ h1))
               (fillList_frame _ _ _ _ h1b))
             (by simp [framePreserved, GenState.setType]))
        | (exact absurd h (by simp))

/-- A successful element-loop run touches only the type heap. -/
theorem fillList_frame :
    ∀ (gen : GenState) (olds : List AstType) (as' : List Nat)
      (gen' : GenState), irTypeList gen olds = .ok (as', gen') →
      framePreserved gen gen' := by
  intro gen olds as' gen' h
  cases olds with
  | nil =>
      simp only [irTypeList] at h
      injection h with hp
      injection hp with hh1 hh2
      subst hh2
      exact framePreserved_refl gen
  | cons o rest =>
      simp only [irTypeList] at h
      rcases Res.bind_eq_ok h with ⟨⟨ea, g1⟩, h1, h2⟩
      rcases Res.bind_eq_ok h2 with ⟨⟨as2, g2⟩, h1b, h2b⟩
      injection h2b with hp
      injection hp with hh1 hh2
      subst hh2
      exact framePreserved_trans (fill_frame _ _ _ _ _ h1)
        (fillList_frame _ _ _ _ h1b)
end

/-- A successful skeleton creation touches only the type heap. -/
theorem newIRType_frame (gen : GenState) (aliasName : String)
    (old : AstType) (index : List (String × AstType))
    (track : List String) :
    ∀ (a : Nat) (gen' : GenState),
      newIRType gen aliasName old index track = .ok (a, gen') →
      framePreserved gen gen' := by
  induction aliasName, old, index, track using newIRType.induct
  case gen => exact gen
  all_goals intro a gen' h
  all_goals
    first
    | (simp only [newIRType, GenState.allocType, Res.ok.injEq,
        Prod.mk.injEq] at h
       obtain ⟨h1, h2⟩ := h
       subst h2
       simp [framePreserved])
    | (rw [newIRType_cycle _ _ _ _ _ (by assumption)] at h; cases h)
    | (rw [newIRType_named_absent _ _ _ _ _ (by assumption)
        (by assumption)] at h
       cases h)
    | (rw [newIRType_named_some _ _ _ _ _ _ (by assumption)
        (by assumption)] at h
       solve_by_elim)

/-- The order list computed by the type-definition indexing loop is the
spec's first-occurrence order, relative to the incoming accumulators. -/
theorem indexTypeDefs_order :
    ∀ (entities : List TopLevelEntity) (index : List (String × AstType))
      (added order : List String) i a o,
      indexTypeDefs entities index added order = .ok (i, a, o) →
      o = order ++ specTypeNameOrderAux added entities := by
  intro entities
  induction entities with
  | nil =>
      intro index added order i a o h
      simp only [indexTypeDefs, Res.ok.injEq, Prod.mk.injEq] at h
      obtain ⟨h1, h2, h3⟩ := h
      simp [specTypeNameOrderAux, ← h3]
  | cons e rest ih =>
      intro index added order i a o h
      cases e with
      | typeDef aliasName typ =>
          simp only [indexTypeDefs] at h
          by_cases hmem : aliasName ∈ added
          · simp only [if_pos hmem] at h
            cases hl : lookupName aliasName index with
            | some prev =>
                rw [hl] at h
                cases prev with
                | opaq =>
                    have h2 := ih _ _ _ _ _ _ h
                    simp [specTypeNameOrderAux, hmem, h2]
                | _ => simp at h
            | none =>
                rw [hl] at h
                have h2 := ih _ _ _ _ _ _ h
                simp [specTypeNameOrderAux, hmem, h2]
          · simp only [if_neg hmem] at h
            cases hl : lookupName aliasName index with
            | some prev =>
                rw [hl] at h
                cases prev with
                | opaq =>
                    have h2 := ih _ _ _ _ _ _ h
                    simp [specTypeNameOrderAux, hmem, h2]
                | _ => simp at h
            | none =>
                rw [hl] at h
                have h2 := ih _ _ _ _ _ _ h
                simp [specTypeNameOrderAux, hmem, h2]
      | globalDecl name ct => exact (ih _ _ _ _ _ _ h).trans (by rfl)
      | globalDef name ct init => exact (ih _ _ _ _ _ _ h).trans (by rfl)
      | funcDecl header => exact (ih _ _ _ _ _ _ h).trans (by rfl)
      | funcDef header body => exact (ih _ _ _ _ _ _ h).trans (by rfl)
      | otherEntity => exact (ih _ _ _ _ _ _ h).trans (by rfl)

/-- The spec-side first-occurrence order has no duplicates and avoids the
seen set. -/
theorem specTypeNameOrderAux_nodup :
    ∀ (entities : List TopLevelEntity) (seen : List String),
      (specTypeNameOrderAux seen entities).Nodup ∧
      ∀ k ∈ specTypeNameOrderAux seen entities, k ∉ seen := by
  intro entities
  induction entities with
  | nil => intro seen; simp [specTypeNameOrderAux]
  | cons e rest ih =>
      intro seen
      cases e with
      | typeDef aliasName typ =>
          by_cases hmem : aliasName ∈ seen
          · simpa [specTypeNameOrderAux, hmem] using ih seen
          · obtain ⟨hnd, hni⟩ := ih (aliasName :: seen)
            constructor
            · simp only [specTypeNameOrderAux, if_neg hmem]
              refine List.nodup_cons.mpr ⟨?_, hnd⟩
              intro hcontra
              exact (hni _ hcontra) (List.mem_cons_self _ _)
            · intro k hk
              simp only [specTypeNameOrderAux, if_neg hmem,
                List.mem_cons] at hk
              rcases hk with rfl | hk'
              · exact hmem
              · exact fun hc => (hni _ hk') (List.mem_cons_of_mem _ hc)
      | globalDecl name ct => exact ih seen
      | globalDef name ct init => exact ih seen
      | funcDecl header => exact ih seen
      | funcDef header body => exact ih seen
      | otherEntity => exact ih seen

/-- The assembly loop of the type resolver appends the table entry of every
key in order and changes nothing else. -/
theorem typeAssembly_spec :
    ∀ (order : List String) (gen : GenState),
      (typeAssembly order gen).mTypeDefs =
        gen.mTypeDefs ++ order.map (fun k => lookupName k gen.ts) ∧
      (typeAssembly order gen).ts = gen.ts ∧
      (typeAssembly order gen).gs = gen.gs ∧
      (typeAssembly order gen).gstore = gen.gstore ∧
      (typeAssembly order gen).tstore = gen.tstore ∧
      (typeAssembly order gen).bstore = gen.bstore ∧
      (typeAssembly order gen).mGlobals = gen.mGlobals ∧
      (typeAssembly order gen).mFuncs = gen.mFuncs := by
  intro order
  induction order with
  | nil => intro gen; simp [typeAssembly]
  | cons key rest ih =>
      intro gen
      simp only [typeAssembly]
      have h2 := ih { gen with mTypeDefs := gen.mTypeDefs ++ [lookupName key gen.ts] }
      simpa using h2

/-- The skeleton loop of the type resolver: everything but the type heap
and the table `ts` is unchanged, and every processed key ends up bound in
`ts` (as does every key that was already bound). -/
theorem typeSkeletonLoop_inv :
    ∀ (perm : List String) (index : List (String × AstType))
      (gen gen' : GenState),
      typeSkeletonLoop index perm gen = .ok gen' →
      (gen'.gs = gen.gs ∧ gen'.gstore = gen.gstore ∧
       gen'.bstore = gen.bstore ∧ gen'.mTypeDefs = gen.mTypeDefs ∧
       gen'.mGlobals = gen.mGlobals ∧ gen'.mFuncs = gen.mFuncs) ∧
      ∀ k, ((∃ a, lookupName k gen.ts = some a) ∨ k ∈ perm) →
        ∃ a, lookupName k gen'.ts = some a := by
  intro perm
  induction perm with
  | nil =>
      intro index gen gen' h
      simp only [typeSkeletonLoop, Res.ok.injEq] at h
      subst h
      refine ⟨⟨rfl, rfl, rfl, rfl, rfl, rfl⟩, ?_⟩
      intro k hk
      rcases hk with hk | hk
      · exact hk
      · cases hk
  | cons aliasName rest ih =>
      intro index gen gen' h
      simp only [typeSkeletonLoop] at h
      cases hl : lookupName aliasName index with
      | none => rw [hl] at h; cases h
      | some old =>
          rw [hl] at h
          rcases Res.bind_eq_ok h with ⟨⟨t, g1⟩, h1, h2⟩
          have hframe := newIRType_frame gen aliasName old index [] t g1 h1
          obtain ⟨hts, hgs, hgst, hbst, hmtd, hmg, hmf⟩ := hframe
          obtain ⟨⟨i1, i2, i3, i4, i5, i6⟩, icov⟩ := ih _ _ _ h2
          refine ⟨⟨i1.trans (by simp [hgs]), i2.trans (by simp [hgst]),
            i3.trans (by simp [hbst]), i4.trans (by simp [hmtd]),
            i5.trans (by simp [hmg]), i6.trans (by simp [hmf])⟩, ?_⟩
          intro k hk
          by_cases hka : k = aliasName
          · subst hka
            refine icov k (Or.inl ?_)
            exact ⟨t, by simp [lookupName_upsert_self]⟩
          · rcases hk with ⟨a0, ha0⟩ | hkm
            · refine icov k (Or.inl ?_)
              refine ⟨a0, ?_⟩
              simp only [lookupName_upsert_other _ _ _ _ hka, hts]
              exact ha0
            · rcases List.mem_cons.mp hkm with rfl | hkm'
              · exact absurd rfl hka
              · exact icov k (Or.inr hkm')

/-- The fill loop of the type resolver touches only the type heap. -/
theorem typeFillLoop_frame :
    ∀ (perm : List String) (index : List (String × AstType))
      (gen gen' : GenState),
      typeFillLoop index perm gen = .ok gen' → framePreserved gen gen' := by
  intro perm
  induction perm with
  | nil =>
      intro index gen gen' h
      simp only [typeFillLoop, Res.ok.injEq] at h
      subst h
      exact framePreserved_refl gen
  | cons aliasName rest ih =>
      intro index gen gen' h
      simp only [typeFillLoop] at h
      cases hl : lookupName aliasName index with
      | none => rw [hl] at h; cases h
      | some old =>
          rw [hl] at h
          cases hl2 : lookupName aliasName gen.ts with
          | none => rw [hl2] at h; cases h
          | some t =>
              rw [hl2] at h
              rcases Res.bind_eq_ok h with ⟨⟨r, g1⟩, h1, h2⟩
              exact framePreserved_trans (fill_frame _ _ _ _ _ h1)
                (ih _ _ _ h2)

/-- Decomposition of a successful `resolveTypeDefs` run: the emitted
type-definition list is the table entries of the first-occurrence order,
appended to the incoming list; everything outside the type heap and `ts` is
unchanged; and every key of the skeleton iteration is bound in `ts`. -/
theorem resolveTypeDefs_inv :
    ∀ (entities : List TopLevelEntity) (pS pF : List String)
      (gen gen' : GenState),
      resolveTypeDefs entities pS pF gen = .ok gen' →
      ∃ index added order,
        indexTypeDefs entities [] [] [] = .ok (index, added, order) ∧
        gen'.mTypeDefs = gen.mTypeDefs ++
          order.map (fun k => lookupName k gen'.ts) ∧
        gen'.gs = gen.gs ∧ gen'.gstore = gen.gstore ∧
        gen'.bstore = gen.bstore ∧ gen'.mGlobals = gen.mGlobals ∧
        gen'.mFuncs = gen.mFuncs ∧
        ∀ k ∈ pS, ∃ a, lookupName k gen'.ts = some a := by
  intro entities pS pF gen gen' h
  simp only [resolveTypeDefs] at h
  rcases Res.bind_eq_ok h with ⟨⟨index, added, order⟩, hidx, h2⟩
  rcases Res.bind_eq_ok h2 with ⟨g2, hskel, h3⟩
  rcases Res.bind_eq_ok h3 with ⟨g3, hfill, h4⟩
  injection h4 with h4
  obtain ⟨⟨s1, s2, s3, s4, s5, s6⟩, scov⟩ :=
    typeSkeletonLoop_inv pS index _ g2 hskel
  obtain ⟨f1, f2, f3, f4, f5, f6, f7⟩ := typeFillLoop_frame pF index g2 g3 hfill
  obtain ⟨a1, a2, a3, a4, a5, a6, a7, a8⟩ := typeAssembly_spec order g3
  refine ⟨index, added, order, hidx, ?_, ?_, ?_, ?_, ?_, ?_, ?_⟩
  · rw [← h4, a1, f5, s4, a2]
  · rw [← h4, a3, f2, s1]
  · rw [← h4, a4, f3, s2]
  · rw [← h4, a6, f4, s3]
  · rw [← h4, a7, f6, s5]
  · rw [← h4, a8, f7, s6]
  · intro k hk
    obtain ⟨a0, ha0⟩ := scov k (Or.inr hk)
    refine ⟨a0, ?_⟩
    rw [← h4, a2, f1]
    exact ha0

theorem getElem?_append_some {α : Type} {l : List α} {b : Nat} {v : α}
    (h : l[b]? = some v) (l2 : List α) : (l ++ l2)[b]? = some v := by
  obtain ⟨hb, _⟩ := List.getElem?_eq_some.mp h
  rw [List.getElem?_append, if_pos hb]
  exact h

theorem gframePreserved_refl (gen : GenState) : gframePreserved gen gen :=
  ⟨rfl, rfl, rfl, rfl, rfl, fun b node h => ⟨node, h, rfl, rfl⟩⟩

theorem gframePreserved_trans {g1 g2 g3 : GenState}
    (h12 : gframePreserved g1 g2) (h23 : gframePreserved g2 g3) :
    gframePreserved g1 g3 := by
  obtain ⟨a1, a2, a3, a4, a5, a6⟩ := h12
  obtain ⟨b1, b2, b3, b4, b5, b6⟩ := h23
  refine ⟨b1.trans a1, b2.trans a2, b3.trans a3, b4.trans a4, b5.trans a5, ?_⟩
  intro b node h
  obtain ⟨n1, hn1, hname1, hkind1⟩ := a6 b node h
  obtain ⟨n2, hn2, hname2, hkind2⟩ := b6 b n1 hn1
  exact ⟨n2, hn2, hname2.trans hname1, hkind2.trans hkind1⟩

theorem framePreserved_gframe {g1 g2 : GenState}
    (h : framePreserved g1 g2) : gframePreserved g1 g2 := by
  obtain ⟨a1, a2, a3, a4, a5, a6, a7⟩ := h
  exact ⟨a1, a2, a5, a6, a7,
    fun b node hb => ⟨node, by simp [GenState.getGlobal, a3] at hb ⊢; exact hb,
      rfl, rfl⟩⟩

/-- The order lists computed by the globals indexing loop are the source
orders of global names and function names. -/
theorem indexGlobals_orders :
    ∀ (entities : List TopLevelEntity)
      (index : List (String × TopLevelEntity)) (gOrd fOrd : List String)
      i g f,
      indexGlobals entities index gOrd fOrd = .ok (i, g, f) →
      g = gOrd ++ specGlobalOrder entities ∧
      f = fOrd ++ specFuncOrder entities := by
  intro entities
  induction entities with
  | nil =>
      intro index gOrd fOrd i g f h
      simp only [indexGlobals, Res.ok.injEq, Prod.mk.injEq] at h
      obtain ⟨h1, h2, h3⟩ := h
      simp [specGlobalOrder, specFuncOrder, ← h2, ← h3]
  | cons e rest ih =>
      intro index gOrd fOrd i g f h
      cases e with
      | typeDef al ty =>
          simpa [specGlobalOrder, specFuncOrder] using ih _ _ _ _ _ _ h
      | otherEntity =>
          simpa [specGlobalOrder, specFuncOrder] using ih _ _ _ _ _ _ h
      | globalDecl name ct =>
          simp only [indexGlobals] at h
          cases hl : lookupName name index with
          | some prev => rw [hl] at h; cases h
          | none =>
              rw [hl] at h
              obtain ⟨h1, h2⟩ := ih _ _ _ _ _ _ h
              simp [specGlobalOrder, specFuncOrder, h1, h2]
      | globalDef name ct init =>
          simp only [indexGlobals] at h
          cases hl : lookupName name index with
          | some prev => rw [hl] at h; cases h
          | none =>
              rw [hl] at h
              obtain ⟨h1, h2⟩ := ih _ _ _ _ _ _ h
              simp [specGlobalOrder, specFuncOrder, h1, h2]
      | funcDecl header =>
          simp only [indexGlobals] at h
          cases hl : lookupName header.name index with
          | some prev => rw [hl] at h; cases h
          | none =>
              rw [hl] at h
              obtain ⟨h1, h2⟩ := ih _ _ _ _ _ _ h
              simp [specGlobalOrder, specFuncOrder, h1, h2]
      | funcDef header body =>
          simp only [indexGlobals] at h
          cases hl : lookupName header.name index with
          | some prev => rw [hl] at h; cases h
          | none =>
              rw [hl] at h
              obtain ⟨h1, h2⟩ := ih _ _ _ _ _ _ h
              simp [specGlobalOrder, specFuncOrder, h1, h2]

/-- Instruction-operand resolution threads the generator state through
unchanged: it only reads tables. -/
theorem resolveInsts_state :
    ∀ (insts : List Inst) (gen : GenState)
      (ls ls' : List (String × LocalEntity)) (gen' : GenState),
      resolveInsts gen ls insts = .ok (ls', gen') → gen' = gen := by
  intro insts
  induction insts with
  | nil =>
      intro gen ls ls' gen' h
      simp only [resolveInsts, Res.ok.injEq, Prod.mk.injEq] at h
      exact h.2.symm
  | cons i rest ih =>
      intro gen ls ls' gen' h
      cases i with
      | call result callee =>
          simp only [resolveInsts] at h
          cases hl : lookupName callee gen.gs with
          | none => rw [hl] at h; cases h
          | some a => rw [hl] at h; exact ih _ _ _ _ h
      | br target =>
          simp only [resolveInsts] at h
          cases hb : irBasicBlock ls target with
          | ok b => rw [hb] at h; exact ih _ _ _ _ h
          | err e => rw [hb] at h; cases h
          | panicked p => rw [hb] at h; cases h
      | retVoid =>
          simp only [resolveInsts] at h
          exact ih _ _ _ _ h

/-- The per-block loop threads the generator state through unchanged. -/
theorem resolveBlocks_state :
    ∀ (body : List AstBlock) (gen : GenState)
      (ls ls' : List (String × LocalEntity)) (gen' : GenState),
      resolveBlocks gen ls body = .ok (ls', gen') → gen' = gen := by
  intro body
  induction body with
  | nil =>
      intro gen ls ls' gen' h
      simp only [resolveBlocks, Res.ok.injEq, Prod.mk.injEq] at h
      exact h.2.symm
  | cons b rest ih =>
      intro gen ls ls' gen' h
      simp only [resolveBlocks] at h
      rcases Res.bind_eq_ok h with ⟨⟨ls1, g1⟩, h1, h2⟩
      have := resolveInsts_state _ _ _ _ _ h1
      subst this
      exact ih _ _ _ _ h2

/-- Block pre-registration only allocates basic-block nodes. -/
theorem registerBlocks_state :
    ∀ (body : List AstBlock) (gen : GenState)
      (ls : List (String × LocalEntity)),
      (registerBlocks gen ls body).2.2.ts = gen.ts ∧
      (registerBlocks gen ls body).2.2.gs = gen.gs ∧
      (registerBlocks gen ls body).2.2.gstore = gen.gstore ∧
      (registerBlocks gen ls body).2.2.tstore = gen.tstore ∧
      (registerBlocks gen ls body).2.2.mTypeDefs = gen.mTypeDefs ∧
      (registerBlocks gen ls body).2.2.mGlobals = gen.mGlobals ∧
      (registerBlocks gen ls body).2.2.mFuncs = gen.mFuncs := by
  intro body
  induction body with
  | nil => intro gen ls; simp [registerBlocks]
  | cons b rest ih =>
      intro gen ls
      simp only [registerBlocks, GenState.allocBlock]
      have h2 := ih { gen with bstore := gen.bstore ++ [⟨b.label⟩] }
        (upsert ls b.label (.block gen.bstore.length))
      simpa using h2

/-- Constant resolution does not change the generator state. -/
theorem irConstant_state (gen : GenState) (t : Option Nat) (c : AstConst)
    (v : ConstVal) (gen' : GenState) (h : irConstant gen t c = .ok (v, gen')) :
    gen' = gen := by
  cases c with
  | intLit n =>
      simp only [irConstant, Res.ok.injEq, Prod.mk.injEq] at h
      exact h.2.symm
  | globalRef name =>
      simp only [irConstant] at h
      cases hl : lookupName name gen.gs with
      | none => rw [hl] at h; cases h
      | some a =>
          rw [hl] at h
          simp only [Res.ok.injEq, Prod.mk.injEq] at h
          exact h.2.symm

/-- The signature-parameter loop touches only the type heap. -/
theorem sigParamTypes_frame :
    ∀ (params : List FuncParam) (gen : GenState) (as' : List Nat)
      (gen' : GenState), sigParamTypes gen params = .ok (as', gen') →
      framePreserved gen gen' := by
  intro params
  induction params with
  | nil =>
      intro gen as' gen' h
      simp only [sigParamTypes, Res.ok.injEq, Prod.mk.injEq] at h
      rw [← h.2]
      exact framePreserved_refl gen
  | cons p rest ih =>
      intro gen as' gen' h
      simp only [sigParamTypes, irType] at h
      rcases Res.bind_eq_ok h with ⟨⟨a1, g1⟩, h1, h2⟩
      rcases Res.bind_eq_ok h2 with ⟨⟨as2, g2⟩, h1b, h2b⟩
      injection h2b with hp
      injection hp with hh1 hh2
      subst hh2
      exact framePreserved_trans (fill_frame _ _ _ _ _ h1) (ih _ _ _ h1b)

/-- The header-parameter loop touches only the type heap. -/
theorem headerParams_frame :
    ∀ (params : List FuncParam) (gen : GenState)
      (ps : List (Nat × Option String)) (gen' : GenState),
      headerParams gen params = .ok (ps, gen') →
      framePreserved gen gen' := by
  intro params
  induction params with
  | nil =>
      intro gen ps gen' h
      simp only [headerParams, Res.ok.injEq, Prod.mk.injEq] at h
      rw [← h.2]
      exact framePreserved_refl gen
  | cons p rest ih =>
      intro gen ps gen' h
      simp only [headerParams, irType] at h
      rcases Res.bind_eq_ok h with ⟨⟨a1, g1⟩, h1, h2⟩
      rcases Res.bind_eq_ok h2 with ⟨⟨ps2, g2⟩, h1b, h2b⟩
      injection h2b with hp
      injection hp with hh1 hh2
      subst hh2
      exact framePreserved_trans (fill_frame _ _ _ _ _ h1) (ih _ _ _ h1b)

theorem getGlobal_some_lt {gen : GenState} {g : Nat} {node : GlobalNode}
    (h : gen.getGlobal g = some node) : g < gen.gstore.length := by
  obtain ⟨hb, _⟩ := List.getElem?_eq_some.mp h
  exact hb

/-- Overwriting a live global entity with one of the same name and kind is
a global-frame step. -/
theorem setGlobal_gframe {gen : GenState} {g : Nat} {node node' : GlobalNode}
    (hget : gen.getGlobal g = some node)
    (hname : globalNodeName node' = globalNodeName node)
    (hkind : node'.isVarNode = node.isVarNode) :
    gframePreserved gen (gen.setGlobal g node') := by
  refine ⟨rfl, rfl, rfl, rfl, rfl, ?_⟩
  intro b nb hb
  by_cases hbg : b = g
  · subst hbg
    have hnb : node = nb := by
      rw [hget] at hb
      injection hb
    subst hnb
    refine ⟨node', ?_, hname, hkind⟩
    show (gen.gstore.set b node')[b]? = some node'
    exact List.getElem?_set_self (getGlobal_some_lt hget)
  · refine ⟨nb, ?_, rfl, rfl⟩
    show (gen.gstore.set g node')[b]? = some nb
    rw [List.getElem?_set_ne (fun hc => hbg hc.symm)]
    exact hb

/-- `newGlobal` is a global-frame step that registers a fresh entity
carrying the requested name (a global variable for global entities, a
function for function entities). -/
theorem newGlobal_ok (gen : GenState) (name : String)
    (old : TopLevelEntity) (g : Nat) (gen' : GenState)
    (h : newGlobal gen name old = .ok (g, gen')) :
    gframePreserved gen gen' ∧
    ∃ node, gen'.getGlobal g = some node ∧ globalNodeName node = name := by
  cases old with
  | typeDef al ty => cases h
  | otherEntity => cases h
  | globalDecl nm ct =>
      simp only [newGlobal, GenState.allocGlobal, GenState.allocType,
        irType, Res.ok_bind] at h
      rcases Res.bind_eq_ok h with ⟨⟨ctA, g1⟩, h1, h2⟩
      injection h2 with hp
      injection hp with hh1 hh2
      subst hh2
      subst hh1
      obtain ⟨f1, f2, f3, f4, f5, f6, f7⟩ := fill_frame _ _ _ _ _ h1
      constructor
      · refine ⟨by simp [GenState.setGlobal, f1],
          by simp [GenState.setGlobal, f2],
          by simp [GenState.setGlobal, f5],
          by simp [GenState.setGlobal, f6],
          by simp [GenState.setGlobal, f7], ?_⟩
        intro b nb hb
        refine ⟨nb, ?_, rfl, rfl⟩
        show ((g1.gstore.set gen.gstore.length _))[b]? = some nb
        have hblt : b < gen.gstore.length := getGlobal_some_lt hb
        rw [List.getElem?_set_ne (by omega), f3]
        exact getElem?_append_some hb _
      · refine ⟨_, List.getElem?_set_self ?_, rfl⟩
        rw [f3]
        simp
  | globalDef nm ct init =>
      simp only [newGlobal, GenState.allocGlobal, GenState.allocType,
        irType, Res.ok_bind] at h
      rcases Res.bind_eq_ok h with ⟨⟨ctA, g1⟩, h1, h2⟩
      injection h2 with hp
      injection hp with hh1 hh2
      subst hh2
      subst hh1
      obtain ⟨f1, f2, f3, f4, f5, f6, f7⟩ := fill_frame _ _ _ _ _ h1
      constructor
      · refine ⟨by simp [GenState.setGlobal, f1],
          by simp [GenState.setGlobal, f2],
          by simp [GenState.setGlobal, f5],
          by simp [GenState.setGlobal, f6],
          by simp [GenState.setGlobal, f7], ?_⟩
        intro b nb hb
        refine ⟨nb, ?_, rfl, rfl⟩
        show ((g1.gstore.set gen.gstore.length _))[b]? = some nb
        have hblt : b < gen.gstore.length := getGlobal_some_lt hb
        rw [List.getElem?_set_ne (by omega), f3]
        exact getElem?_append_some hb _
      · refine ⟨_, List.getElem?_set_self ?_, rfl⟩
        rw [f3]
        simp
  | funcDecl header =>
      simp only [newGlobal, GenState.allocGlobal, GenState.allocType,
        GenState.setType, irType, Res.ok_bind] at h
      rcases Res.bind_eq_ok h with ⟨⟨retA, g1⟩, h1, h2⟩
      rcases Res.bind_eq_ok h2 with ⟨⟨psA, g2⟩, h1b, h2b⟩
      injection h2b with hp
      injection hp with hh1 hh2
      subst hh2
      subst hh1
      obtain ⟨f1, f2, f3, f4, f5, f6, f7⟩ := fill_frame _ _ _ _ _ h1
      obtain ⟨e1, e2, e3, e4, e5, e6, e7⟩ := sigParamTypes_frame _ _ _ _ h1b
      constructor
      · refine ⟨by simp [GenState.setGlobal, e1, f1],
          by simp [GenState.setGlobal, e2, f2],
          by simp [GenState.setGlobal, e5, f5],
          by simp [GenState.setGlobal, e6, f6],
          by simp [GenState.setGlobal, e7, f7], ?_⟩
        intro b nb hb
        refine ⟨nb, ?_, rfl, rfl⟩
        show ((g2.gstore.set gen.gstore.length _))[b]? = some nb
        have hblt : b < gen.gstore.length := getGlobal_some_lt hb
        rw [List.getElem?_set_ne (by omega), e3, f3]
        exact getElem?_append_some hb _
      · refine ⟨_, List.getElem?_set_self ?_, rfl⟩
        rw [e3, f3]
        simp
  | funcDef header body =>
      simp only [newGlobal, GenState.allocGlobal, GenState.allocType,
        GenState.setType, irType, Res.ok_bind] at h
      rcases Res.bind_eq_ok h with ⟨⟨retA, g1⟩, h1, h2⟩
      rcases Res.bind_eq_ok h2 with ⟨⟨psA, g2⟩, h1b, h2b⟩
      injection h2b with hp
      injection hp with hh1 hh2
      subst hh2
      subst hh1
      obtain ⟨f1, f2, f3, f4, f5, f6, f7⟩ := fill_frame _ _ _ _ _ h1
      obtain ⟨e1, e2, e3, e4, e5, e6, e7⟩ := sigParamTypes_frame _ _ _ _ h1b
      constructor
      · refine ⟨by simp [GenState.setGlobal, e1, f1],
          by simp [GenState.setGlobal, e2, f2],
          by simp [GenState.setGlobal, e5, f5],
          by simp [GenState.setGlobal, e6, f6],
          by simp [GenState.setGlobal, e7, f7], ?_⟩
        intro b nb hb
        refine ⟨nb, ?_, rfl, rfl⟩
        show ((g2.gstore.set gen.gstore.length _))[b]? = some nb
        have hblt : b < gen.gstore.length := getGlobal_some_lt hb
        rw [List.getElem?_set_ne (by omega), e3, f3]
        exact getElem?_append_some hb _
      · refine ⟨_, List.getElem?_set_self ?_, rfl⟩
        rw [e3, f3]
        simp

/-- The function-body resolver is a global-frame step: it allocates blocks
and rewrites only the function's own block list. -/
theorem resolveLocals_gframe (gen : GenState) (f : Nat)
    (body : List AstBlock) (gen' : GenState)
    (h : resolveLocals gen f body = .ok gen') :
    gframePreserved gen gen' := by
  simp only [resolveLocals] at h
  cases hg : gen.getGlobal f with
  | none => rw [hg] at h; cases h
  | some node =>
      cases node with
      | globalVar nm ct ty init => rw [hg] at h; cases h
      | functionNode nm sig ty params blocks =>
          rw [hg] at h
          rcases Res.bind_eq_ok h with ⟨⟨ls2, gen3⟩, hblk, hfin⟩
          have hg3 := resolveBlocks_state _ _ _ _ _ hblk
          injection hfin with hfin
          subst hfin
          subst hg3
          obtain ⟨s1, s2, s3, s4, s5, s6, s7⟩ :=
            registerBlocks_state body gen
              (List.foldl
                (fun ls p =>
                  match p.2 with
                  | some n => upsert ls n LocalEntity.param
                  | none => ls)
                [] params)
          have hget3 : (registerBlocks gen
              (List.foldl
                (fun ls p =>
                  match p.2 with
                  | some n => upsert ls n LocalEntity.param
                  | none => ls)
                [] params)
              body).2.2.getGlobal f =
              some (.functionNode nm sig ty params blocks) := by
            show _[f]? = _
            rw [s3]
            exact hg
          refine gframePreserved_trans
            (⟨s1, s2, s5, s6, s7, ?_⟩ : gframePreserved gen _)
            (setGlobal_gframe hget3 rfl rfl)
          intro b nb hb
          refine ⟨nb, ?_, rfl, rfl⟩
          show _[b]? = some nb
          rw [s3]
          exact hb

/-- Header population is a global-frame step. -/
theorem astToIRFuncHeader_gframe (gen : GenState) (f : Nat)
    (header : FuncHeader) (gen' : GenState)
    (h : astToIRFuncHeader gen f header = .ok gen') :
    gframePreserved gen gen' := by
  simp only [astToIRFuncHeader] at h
  cases hg : gen.getGlobal f with
  | none => rw [hg] at h; cases h
  | some node =>
      rw [hg] at h
      cases node with
      | globalVar nm ct ty init => cases h
      | functionNode nm sig ty params blocks =>
          rcases Res.bind_eq_ok h with ⟨⟨ps, g1⟩, h1, h2⟩
          injection h2 with h2
          subst h2
          have hframe := headerParams_frame _ _ _ _ h1
          have hgf : gframePreserved gen g1 := framePreserved_gframe hframe
          have hget1 : g1.getGlobal f =
              some (.functionNode nm sig ty params blocks) := by
            show g1.gstore[f]? = _
            rw [hframe.2.2.1]
            exact hg
          exact gframePreserved_trans hgf (setGlobal_gframe hget1 rfl rfl)

/-- The whole fill phase for a global or function is a global-frame step. -/
theorem astToIRGlobal_gframe (gen : GenState) (g : Nat)
    (old : TopLevelEntity) (r : Nat) (gen' : GenState)
    (h : astToIRGlobal gen g old = .ok (r, gen')) :
    gframePreserved gen gen' := by
  cases old with
  | typeDef al ty => cases h
  | otherEntity => cases h
  | globalDecl nm ct =>
      simp only [astToIRGlobal, astToIRGlobalDecl] at h
      cases hg : gen.getGlobal g with
      | none => rw [hg] at h; cases h
      | some node =>
          rw [hg] at h
          cases node with
          | functionNode nm2 sig ty params blocks => cases h
          | globalVar nm2 ct2 ty2 init2 =>
              injection h with hp
              injection hp with hh1 hh2
              subst hh2
              exact gframePreserved_refl gen
  | globalDef nm ct init =>
      simp only [astToIRGlobal, astToIRGlobalDef] at h
      cases hg : gen.getGlobal g with
      | none => rw [hg] at h; cases h
      | some node =>
          rw [hg] at h
          cases node with
          | functionNode nm2 sig ty params blocks => cases h
          | globalVar nm2 ct2 ty2 init2 =>
              rcases Res.bind_eq_ok h with ⟨⟨c, g1⟩, h1, h2⟩
              injection h2 with hp
              injection hp with hh1 hh2
              subst hh2
              have hg1 : g1 = gen := irConstant_state _ _ _ _ _ h1
              subst hg1
              exact setGlobal_gframe hg rfl rfl
  | funcDecl header =>
      simp only [astToIRGlobal, astToIRFuncDecl] at h
      cases hg : gen.getGlobal g with
      | none => rw [hg] at h; cases h
      | some node =>
          rw [hg] at h
          cases node with
          | globalVar nm2 ct2 ty2 init2 => cases h
          | functionNode nm2 sig ty params blocks =>
              rcases Res.bind_eq_ok h with ⟨g1, h1, h2⟩
              injection h2 with hp
              injection hp with hh1 hh2
              subst hh2
              exact astToIRFuncHeader_gframe _ _ _ _ h1
  | funcDef header body =>
      simp only [astToIRGlobal, astToIRFuncDef] at h
      cases hg : gen.getGlobal g with
      | none => rw [hg] at h; cases h
      | some node =>
          rw [hg] at h
          cases node with
          | globalVar nm2 ct2 ty2 init2 => cases h
          | functionNode nm2 sig ty params blocks =>
              rcases Res.bind_eq_ok h with ⟨g1, h1, h2⟩
              rcases Res.bind_eq_ok h2 with ⟨g2, h1b, h2b⟩
              injection h2b with hp
              injection hp with hh1 hh2
              subst hh2
              exact gframePreserved_trans
                (astToIRFuncHeader_gframe _ _ _ _ h1)
                (resolveLocals_gframe _ _ _ _ h1b)

/-- The skeleton loop of the globals resolver maintains the table
invariant: every registered name points at an entity carrying it. -/
theorem globalSkeletonLoop_inv :
    ∀ (perm : List String) (index : List (String × TopLevelEntity))
      (gen gen' : GenState),
      globalSkeletonLoop index perm gen = .ok gen' → GsOk gen →
      GsOk gen' ∧ gen'.ts = gen.ts ∧ gen'.mTypeDefs = gen.mTypeDefs ∧
      gen'.mGlobals = gen.mGlobals ∧ gen'.mFuncs = gen.mFuncs := by
  intro perm
  induction perm with
  | nil =>
      intro index gen gen' h hGs
      simp only [globalSkeletonLoop, Res.ok.injEq] at h
      subst h
      exact ⟨hGs, rfl, rfl, rfl, rfl⟩
  | cons name rest ih =>
      intro index gen gen' h hGs
      simp only [globalSkeletonLoop] at h
      cases hl : lookupName name index with
      | none => rw [hl] at h; cases h
      | some old =>
          rw [hl] at h
          rcases Res.bind_eq_ok h with ⟨⟨g, g1⟩, h1, h2⟩
          obtain ⟨hgf, node, hnode, hname⟩ := newGlobal_ok _ _ _ _ _ h1
          obtain ⟨w1, w2, w3, w4, w5, w6⟩ := hgf
          have hGs2 : GsOk { g1 with gs := upsert g1.gs name g } := by
            intro k a hk
            by_cases hkn : k = name
            · subst hkn
              rw [lookupName_upsert_self] at hk
              injection hk with hk
              subst hk
              exact ⟨node, hnode, hname⟩
            · rw [lookupName_upsert_other _ _ _ _ hkn, w2] at hk
              obtain ⟨n0, hn0, hname0⟩ := hGs k a hk
              obtain ⟨n1, hn1, hname1, _⟩ := w6 a n0 hn0
              exact ⟨n1, hn1, hname1.trans hname0⟩
          obtain ⟨i1, i2, i3, i4, i5⟩ := ih _ _ _ h2 hGs2
          exact ⟨i1, i2.trans (by simpa using w1),
            i3.trans (by simpa using w3), i4.trans (by simpa using w4),
            i5.trans (by simpa using w5)⟩

/-- The fill loop of the globals resolver keeps the tables, the module
lists and the table invariant. -/
theorem globalFillLoop_inv :
    ∀ (perm : List String) (index : List (String × TopLevelEntity))
      (gen gen' : GenState),
      globalFillLoop index perm gen = .ok gen' → GsOk gen →
      GsOk gen' ∧ gen'.ts = gen.ts ∧ gen'.gs = gen.gs ∧
      gen'.mTypeDefs = gen.mTypeDefs ∧ gen'.mGlobals = gen.mGlobals ∧
      gen'.mFuncs = gen.mFuncs := by
  intro perm
  induction perm with
  | nil =>
      intro index gen gen' h hGs
      simp only [globalFillLoop, Res.ok.injEq] at h
      subst h
      exact ⟨hGs, rfl, rfl, rfl, rfl, rfl⟩
  | cons name rest ih =>
      intro index gen gen' h hGs
      simp only [globalFillLoop] at h
      cases hl : lookupName name index with
      | none => rw [hl] at h; cases h
      | some old =>
          rw [hl] at h
          cases hl2 : lookupName name gen.gs with
          | none => rw [hl2] at h; cases h
          | some g =>
              rw [hl2] at h
              rcases Res.bind_eq_ok h with ⟨⟨r, g1⟩, h1, h2⟩
              obtain ⟨w1, w2, w3, w4, w5, w6⟩ :=
                astToIRGlobal_gframe _ _ _ _ _ h1
              have hGs1 : GsOk g1 := by
                intro k a hk
                rw [w2] at hk
                obtain ⟨n0, hn0, hname0⟩ := hGs k a hk
                obtain ⟨n1, hn1, hname1, _⟩ := w6 a n0 hn0
                exact ⟨n1, hn1, hname1.trans hname0⟩
              obtain ⟨i1, i2, i3, i4, i5, i6⟩ := ih _ _ _ h2 hGs1
              exact ⟨i1, i2.trans w1, i3.trans w2, i4.trans w3,
                i5.trans w4, i6.trans w5⟩

theorem globalValue_ok (gen : GenState) (key : String) (a : Nat)
    (h : globalValue gen key = .ok a) :
    lookupName key gen.gs = some a ∧
    ∃ node, gen.getGlobal a = some node := by
  simp only [globalValue] at h
  cases hl : lookupName key gen.gs with
  | none => rw [hl] at h; cases h
  | some b =>
      simp only [hl] at h
      cases hg : gen.getGlobal b with
      | none => simp only [hg] at h; cases h
      | some node =>
          simp only [hg] at h
          cases node with
          | globalVar nm ct ty init =>
              injection h with h
              subst h
              exact ⟨rfl, _, hg⟩
          | functionNode nm sig ty params blocks => cases h

theorem functionValue_ok (gen : GenState) (key : String) (a : Nat)
    (h : functionValue gen key = .ok a) :
    lookupName key gen.gs = some a ∧
    ∃ node, gen.getGlobal a = some node := by
  simp only [functionValue] at h
  cases hl : lookupName key gen.gs with
  | none => rw [hl] at h; cases h
  | some b =>
      simp only [hl] at h
      cases hg : gen.getGlobal b with
      | none => simp only [hg] at h; cases h
      | some node =>
          simp only [hg] at h
          cases node with
          | globalVar nm ct ty init => cases h
          | functionNode nm sig ty params blocks =>
              injection h with h
              subst h
              exact ⟨rfl, _, hg⟩

/-- The global assembly loop appends exactly the entities registered for
the order's keys, whose names are those keys. -/
theorem globalAssemblyGlobals_inv :
    ∀ (order : List String) (gen gen' : GenState),
      globalAssemblyGlobals order gen = .ok gen' → GsOk gen →
      gen'.gstore = gen.gstore ∧ gen'.gs = gen.gs ∧ gen'.ts = gen.ts ∧
      gen'.mTypeDefs = gen.mTypeDefs ∧ gen'.mFuncs = gen.mFuncs ∧
      gen'.mGlobals.map (fun x => (gen.getGlobal x).map globalNodeName) =
        gen.mGlobals.map (fun x => (gen.getGlobal x).map globalNodeName) ++
          order.map some := by
  intro order
  induction order with
  | nil =>
      intro gen gen' h hGs
      simp only [globalAssemblyGlobals, Res.ok.injEq] at h
      subst h
      simp
  | cons key rest ih =>
      intro gen gen' h hGs
      simp only [globalAssemblyGlobals] at h
      cases hv : globalValue gen key with
      | err e => rw [hv] at h; cases h
      | panicked p => rw [hv] at h; cases h
      | ok a =>
          rw [hv] at h
          obtain ⟨hlk, node, hnode⟩ := globalValue_ok gen key a hv
          obtain ⟨n0, hn0, hname0⟩ := hGs key a hlk
          obtain ⟨i1, i2, i3, i4, i5, i6⟩ := ih _ _ h hGs
          refine ⟨i1, i2, i3, i4, i5, ?_⟩
          simp only [GenState.getGlobal] at i6 hn0 ⊢
          rw [i6]
          simp [hn0, hname0]

/-- The function assembly loop, likewise. -/
theorem globalAssemblyFuncs_inv :
    ∀ (order : List String) (gen gen' : GenState),
      globalAssemblyFuncs order gen = .ok gen' → GsOk gen →
      gen'.gstore = gen.gstore ∧ gen'.gs = gen.gs ∧ gen'.ts = gen.ts ∧
      gen'.mTypeDefs = gen.mTypeDefs ∧ gen'.mGlobals = gen.mGlobals ∧
      gen'.mFuncs.map (fun x => (gen.getGlobal x).map globalNodeName) =
        gen.mFuncs.map (fun x => (gen.getGlobal x).map globalNodeName) ++
          order.map some := by
  intro order
  induction order with
  | nil =>
      intro gen gen' h hGs
      simp only [globalAssemblyFuncs, Res.ok.injEq] at h
      subst h
      simp
  | cons key rest ih =>
      intro gen gen' h hGs
      simp only [globalAssemblyFuncs] at h
      cases hv : functionValue gen key with
      | err e => rw [hv] at h; cases h
      | panicked p => rw [hv] at h; cases h
      | ok a =>
          rw [hv] at h
          obtain ⟨hlk, node, hnode⟩ := functionValue_ok gen key a hv
          obtain ⟨n0, hn0, hname0⟩ := hGs key a hlk
          obtain ⟨i1, i2, i3, i4, i5, i6⟩ := ih _ _ h hGs
          refine ⟨i1, i2, i3, i4, i5, ?_⟩
          simp only [GenState.getGlobal] at i6 hn0 ⊢
          rw [i6]
          simp [hn0, hname0]

/-- Decomposition of a successful `resolveGlobals` run started with empty
module lists: the emitted globals and functions are exactly the entities of
the source-order names, in order. -/
theorem resolveGlobals_inv (entities : List TopLevelEntity)
    (pS pF : List String) (gen gen' : GenState)
    (h : resolveGlobals entities pS pF gen = .ok gen')
    (hmg : gen.mGlobals = []) (hmf : gen.mFuncs = []) :
    gen'.ts = gen.ts ∧ gen'.mTypeDefs = gen.mTypeDefs ∧
    gen'.mGlobals.map (fun x => (gen'.getGlobal x).map globalNodeName) =
      (specGlobalOrder entities).map some ∧
    gen'.mFuncs.map (fun x => (gen'.getGlobal x).map globalNodeName) =
      (specFuncOrder entities).map some := by
  simp only [resolveGlobals] at h
  rcases Res.bind_eq_ok h with ⟨⟨index, gOrd, fOrd⟩, hidx, h2⟩
  rcases Res.bind_eq_ok h2 with ⟨g1, hskel, h3⟩
  rcases Res.bind_eq_ok h3 with ⟨g2, hfill, h4⟩
  rcases Res.bind_eq_ok h4 with ⟨g3, hasmG, hasmF⟩
  obtain ⟨ho1, ho2⟩ := indexGlobals_orders entities [] [] [] _ _ _ hidx
  simp only [List.nil_append] at ho1 ho2
  have hGs0 : GsOk { gen with gs := [] } := by
    intro k a hk
    simp [lookupName] at hk
  obtain ⟨hGs1, s2, s3, s4, s5⟩ :=
    globalSkeletonLoop_inv pS index _ g1 hskel hGs0
  obtain ⟨hGs2, f2, f3, f4, f5, f6⟩ :=
    globalFillLoop_inv pF index g1 g2 hfill hGs1
  obtain ⟨a1, a2, a3, a4, a5, a6⟩ :=
    globalAssemblyGlobals_inv gOrd g2 g3 hasmG hGs2
  have hGs3 : GsOk g3 := by
    intro k a hk
    rw [a2] at hk
    obtain ⟨n, hn, hnm⟩ := hGs2 k a hk
    refine ⟨n, ?_, hnm⟩
    show g3.gstore[a]? = some n
    rw [a1]
    exact hn
  obtain ⟨b1, b2, b3, b4, b5, b6⟩ :=
    globalAssemblyFuncs_inv fOrd g3 gen' hasmF hGs3
  have hmg2 : g2.mGlobals = [] := by
    rw [f5, s4]
    simpa using hmg
  have hmf3 : g3.mFuncs = [] := by
    rw [a5, f6, s5]
    simpa using hmf
  refine ⟨?_, ?_, ?_, ?_⟩
  · rw [b3, a3, f2, s2]
  · rw [b4, a4, f4, s3]
  · simp only [GenState.getGlobal] at a6 ⊢
    rw [b5, b1, a1, a6, hmg2, ho1]
    simp
  · simp only [GenState.getGlobal] at b6 ⊢
    rw [b1, b6, hmf3, ho2]
    simp

/-- C2: for every successfully resolved module the assembled lists mirror
the source: the type-definition list is exactly the table entries of the
first-occurrence type-name order (one entry per distinct name, duplicates
impossible), the global and function lists carry exactly the global and
function names in source order — all independent of the iteration orders of
the internal tables, which are universally quantified — and any key the
skeleton iteration covers is bound in the type table.  In particular, the
module `define f (calls g); define g` resolves successfully with function
list `[f, g]` in declaration order. -/
theorem claim_C2 :
    (∀ (entities : List TopLevelEntity) (pT1 pT2 pG1 pG2 : List String)
      (gen' : GenState),
      resolveModule entities pT1 pT2 pG1 pG2 initGen = .ok gen' →
      gen'.mTypeDefs = (specTypeNameOrder entities).map
        (fun k => lookupName k gen'.ts) ∧
      (specTypeNameOrder entities).Nodup ∧
      gen'.mGlobals.map (fun x => (gen'.getGlobal x).map globalNodeName) =
        (specGlobalOrder entities).map some ∧
      gen'.mFuncs.map (fun x => (gen'.getGlobal x).map globalNodeName) =
        (specFuncOrder entities).map some ∧
      ∀ k ∈ specTypeNameOrder entities, k ∈ pT1 →
        ∃ a, lookupName k gen'.ts = some a) ∧
    (resolveModule fgEntities [] [] ["f", "g"] ["f", "g"] initGen =
      .ok fgGen ∧
     fgGen.mFuncs.map (fun x => (fgGen.getGlobal x).map globalNodeName) =
       [some "f", some "g"]) := by
  constructor
  · intro entities pT1 pT2 pG1 pG2 gen' h
    simp only [resolveModule] at h
    rcases Res.bind_eq_ok h with ⟨g1, hT, hG⟩
    obtain ⟨index, added, order, hidx, hmtd, hgs, hgst, hbst, hmg, hmf,
      hcov⟩ := resolveTypeDefs_inv entities pT1 pT2 initGen g1 hT
    have horder : order = specTypeNameOrder entities := by
      have h2 := indexTypeDefs_order entities [] [] [] _ _ _ hidx
      simpa [specTypeNameOrder] using h2
    have hmg1 : g1.mGlobals = [] := hmg.trans rfl
    have hmf1 : g1.mFuncs = [] := hmf.trans rfl
    obtain ⟨r1, r2, r3, r4⟩ :=
      resolveGlobals_inv entities pG1 pG2 g1 gen' hG hmg1 hmf1
    refine ⟨?_, ?_, r3, r4, ?_⟩
    · rw [r2, hmtd, r1, horder]
      simp [initGen]
    · simpa [specTypeNameOrder] using
        (specTypeNameOrderAux_nodup entities []).1
    · intro k hk hkp
      obtain ⟨a, ha⟩ := hcov k hkp
      exact ⟨a, by rw [r1]; exact ha⟩
  · exact ⟨rfl, rfl⟩

theorem claim_C2_witness :
    (specTypeNameOrder fgEntities).Nodup ∧
    fgGen.mFuncs.map (fun x => (fgGen.getGlobal x).map globalNodeName) =
      (specFuncOrder fgEntities).map some :=
  ⟨(claim_C2.1 fgEntities [] [] ["f", "g"] ["f", "g"] fgGen
      claim_C2.2.1).2.1,
   (claim_C2.1 fgEntities [] [] ["f", "g"] ["f", "g"] fgGen
      claim_C2.2.1).2.2.2.1⟩

end LTM
